import Mathlib

/-!
Verification of the Democratic Decision Engine of IMAP-DemAgSys.

Shallow embedding of `src/tools/team_voting_tool.py` (class
`DemocraticVotingLogic` and its dataclasses) and of
`src/tools/synthesis_tools.py` (class `ProposalSynthesisLogic`).

Modelling conventions:
* Python wall-clock reads (`time.time()`, `datetime.now()`) are passed in as
  explicit `now : Nat` arguments; timestamps are `Nat`.
* Python dicts keyed by strings are association lists with first-match lookup,
  in-place overwrite (`setA`) and first-match deletion (`delA`), which matches
  insertion-ordered Python dict semantics for the operations the code uses.
* Fallible code paths (KeyError on `option_scores[oid] += p` for a missing
  key, IndexError on `contributing_agents[0]` for an empty list,
  StopIteration on an exhausted `next(...)`) are modelled with
  `Except Unit`; `Except.error ()` marks the raised exception.  State returned
  next to an `Except.error` is the state the Python objects hold when the
  exception propagates (mutations made before the raise are kept).
* Machine integers do not overflow in the source's ranges; scores and lengths
  are `Nat`.
-/

namespace DemAgSys

/-- Phase enum `VotingPhase` of team_voting_tool.py. -/
inductive VotingPhase where
  | context_loading
  | idea_collection
  | synthesis
  | ranked_voting
  | commitment
  deriving DecidableEq

/-- Enum `ConflictType` of team_voting_tool.py. -/
inductive ConflictType where
  | architecture_decision
  | agent_disagreement
  | ux_ui_direction
  | performance_tradeoff
  | manual_trigger
  deriving DecidableEq

/-- The `.value` string of each `ConflictType` member. -/
def ConflictType.value : ConflictType → String
  | .architecture_decision => "architecture_decision"
  | .agent_disagreement => "agent_disagreement"
  | .ux_ui_direction => "ux_ui_direction"
  | .performance_tradeoff => "performance_tradeoff"
  | .manual_trigger => "manual_trigger"

/-- Dataclass `AgentProposal`. -/
structure AgentProposal where
  agent_name : String
  proposal : String
  reasoning : String
  timestamp : Nat
  deriving DecidableEq

/-- Dataclass `VotingOption`. -/
structure VotingOption where
  option_id : String
  title : String
  description : String
  source_proposals : List String
  deriving DecidableEq

/-- Dataclass `AgentVote`. -/
structure AgentVote where
  agent_name : String
  ranked_options : List String
  reasoning_for_top_choice : String
  timestamp : Nat
  deriving DecidableEq

/-- Dataclass `DemocraticDecision`. -/
structure DemocraticDecision where
  decision_id : String
  conflict_type : ConflictType
  trigger_reason : String
  context : String
  proposals : List AgentProposal
  voting_options : List VotingOption
  votes : List AgentVote
  winning_option_id : String
  winning_option : Option VotingOption
  final_decision : String
  start_time : Nat
  end_time : Option Nat
  current_phase : VotingPhase
  participating_agents : List String
  deriving DecidableEq

/-- First-match lookup in an association list (Python `dict` access /
`in` test on keys). -/
def lookupA {α : Type} : List (String × α) → String → Option α
  | [], _ => none
  | p :: t, k => if p.1 = k then some p.2 else lookupA t k

/-- Python `dict[k] = v`: overwrite in place if the key is present (keeping its
position, as insertion-ordered dicts do), else append. -/
def setA {α : Type} : List (String × α) → String → α → List (String × α)
  | [], k, v => [(k, v)]
  | p :: t, k, v => if p.1 = k then (k, v) :: t else p :: setA t k v

/-- Python `del dict[k]` (the engine only deletes keys it has just looked up). -/
def delA {α : Type} : List (String × α) → String → List (String × α)
  | [], _ => []
  | p :: t, k => if p.1 = k then t else p :: delA t k

/-- The mutable state of a `DemocraticVotingLogic` instance:
`active_decisions` dict and `completed_decisions` list. -/
structure EngineState where
  active_decisions : List (String × DemocraticDecision)
  completed_decisions : List DemocraticDecision
  deriving DecidableEq

/-- Fresh engine, `DemocraticVotingLogic.__init__`. -/
def initEngine : EngineState := ⟨[], []⟩

/-- `trigger_democratic_decision`.  `now` stands for the single wall-clock
instant at which the Python code reads `int(time.time())` for the id and
`datetime.now()` for `start_time`. -/
def trigger_democratic_decision (now : Nat) (ct : ConflictType)
    (trigger_reason context : String) (participating_agents : List String)
    (s : EngineState) : String × EngineState :=
  let decision_id := "decision_" ++ toString now ++ "_" ++ ct.value
  let d : DemocraticDecision :=
    ⟨decision_id, ct, trigger_reason, context, [], [], [], "", none, "",
      now, none, VotingPhase.context_loading, participating_agents⟩
  (decision_id, ⟨setA s.active_decisions decision_id d, s.completed_decisions⟩)

/-- `add_agent_proposal`. -/
def add_agent_proposal (now : Nat) (decision_id agent_name proposal reasoning : String)
    (s : EngineState) : Bool × EngineState :=
  match lookupA s.active_decisions decision_id with
  | none => (false, s)
  | some d =>
    if d.current_phase ≠ VotingPhase.idea_collection then (false, s)
    else if agent_name ∉ d.participating_agents then (false, s)
    else if agent_name ∈ d.proposals.map AgentProposal.agent_name then (false, s)
    else
      let d2 := { d with proposals := d.proposals ++ [⟨agent_name, proposal, reasoning, now⟩] }
      (true, ⟨setA s.active_decisions decision_id d2, s.completed_decisions⟩)

/-- One element of the `synthesized_options` argument of `synthesize_options`:
a dict read with `.get("title", ...)`, `.get("description", "")`,
`.get("source_proposals", [])`; `none` models an absent key. -/
structure SynthInput where
  title : Option String
  description : Option String
  source_proposals : Option (List String)
  deriving DecidableEq

/-- The `VotingOption` that `synthesize_options` builds for the element at
0-based index `i` of its input list. -/
def mkSynthOption (i : Nat) (o : SynthInput) : VotingOption :=
  ⟨"option_" ++ toString (i + 1),
    o.title.getD ("Option " ++ toString (i + 1)),
    o.description.getD "",
    o.source_proposals.getD []⟩

/-- `synthesize_options`. -/
def synthesize_options (decision_id : String) (inputs : List SynthInput)
    (s : EngineState) : Bool × EngineState :=
  match lookupA s.active_decisions decision_id with
  | none => (false, s)
  | some d =>
    if d.current_phase ≠ VotingPhase.synthesis then (false, s)
    else
      let d2 := { d with voting_options := inputs.enum.map (fun p => mkSynthOption p.1 p.2) }
      (true, ⟨setA s.active_decisions decision_id d2, s.completed_decisions⟩)

/-- Helper for `pyDedup`: drop elements already seen. -/
def pyDedupAux : List String → List String → List String
  | [], _ => []
  | a :: t, seen => if a ∈ seen then pyDedupAux t seen else a :: pyDedupAux t (a :: seen)

/-- Keys of a Python dict comprehension over a list: first occurrence kept,
later duplicates dropped. -/
def pyDedup (l : List String) : List String := pyDedupAux l []

/-- `option_scores[k] += add`: update the existing entry, KeyError
(`Except.error ()`) when the key is absent. -/
def updateScore : List (String × Nat) → String → Nat → Except Unit (List (String × Nat))
  | [], _, _ => Except.error ()
  | p :: t, k, add =>
    if p.1 = k then Except.ok ((k, p.2 + add) :: t)
    else Except.map (fun t2 => p :: t2) (updateScore t k add)

/-- The scoring loop of `calculate_ranked_choice_winner` for one vote:
`for rank, option_id in enumerate(vote.ranked_options[:n]): scores[option_id] += n - rank`. -/
def applyBallot (n : Nat) (ranked : List String) (sc : List (String × Nat)) :
    Except Unit (List (String × Nat)) :=
  (ranked.take n).enum.foldlM (fun acc p => updateScore acc p.2 (n - p.1)) sc

/-- One iteration of the vote loop, including the `if vote.ranked_options:` guard. -/
def scoreOneVote (n : Nat) (v : AgentVote) (sc : List (String × Nat)) :
    Except Unit (List (String × Nat)) :=
  if v.ranked_options = [] then Except.ok sc
  else applyBallot n v.ranked_options sc

/-- `option_scores = dict with a zero for each option id` (dict comprehension). -/
def initScores (d : DemocraticDecision) : List (String × Nat) :=
  (pyDedup (d.voting_options.map VotingOption.option_id)).map (fun k => (k, 0))

/-- The fully accumulated `option_scores` dict of
`calculate_ranked_choice_winner` (the loop over all votes). -/
def calcScores (d : DemocraticDecision) : Except Unit (List (String × Nat)) :=
  d.votes.foldlM (fun sc v => scoreOneVote d.voting_options.length v sc) (initScores d)

/-- Python `max(items, key=lambda x: x[1])`: first maximum in iteration order;
`none` for an empty dict (where the code's `if option_scores:` guard is false). -/
def pyMaxSnd : List (String × Nat) → Option (String × Nat)
  | [] => none
  | p :: t => some (t.foldl (fun best q => if q.2 > best.2 then q else best) p)

/-- First `VotingOption` with a given id (`next(opt for opt in ... if ...)`). -/
def findOpt : List VotingOption → String → Option VotingOption
  | [], _ => none
  | o :: t, k => if o.option_id = k then some o else findOpt t k

/-- Python `sorted(items, key=lambda x: x[1], reverse=True)`: a stable
descending sort by the value component, modelled by insertion sort over the
total preorder `snd b ≤ snd a`. -/
def sortScoresDesc (items : List (String × Nat)) : List (String × Nat) :=
  List.insertionSort (fun a b => b.2 ≤ a.2) items

/-- One `"- title: score points\n"` line of the final-decision text; the
`next(...)` inside the loop raises when the option id is unknown. -/
def scoreLine (opts : List VotingOption) (p : String × Nat) : Except Unit String :=
  match findOpt opts p.1 with
  | none => Except.error ()
  | some o => Except.ok ("- " ++ o.title ++ ": " ++ toString p.2 ++ " points\n")

/-- `calculate_ranked_choice_winner` on one decision record.  Returns the
updated record and the winner id (`none` when the early guards return `None`).
The dead branches where `next(...)` would raise StopIteration are modelled as
`Except.error ()` (in the Python original `winning_option_id` would already be
assigned when the first of them raised, but those branches are unreachable,
see `findOpt_of_mem`). -/
def calculate_ranked_choice_winner (d : DemocraticDecision) :
    Except Unit (DemocraticDecision × Option String) :=
  if d.votes = [] ∨ d.voting_options = [] then Except.ok (d, none)
  else
    match calcScores d with
    | Except.error e => Except.error e
    | Except.ok scores =>
      match pyMaxSnd scores with
      | none => Except.ok (d, none)
      | some w =>
        match findOpt d.voting_options w.1 with
        | none => Except.error ()
        | some wopt =>
          match (sortScoresDesc scores).mapM (scoreLine d.voting_options) with
          | Except.error e => Except.error e
          | Except.ok lines =>
            let finalText := "DEMOCRATIC DECISION COMPLETE!\n\nWinner: " ++ wopt.title ++
              "\n\nFinal Scores:\n" ++ String.join lines ++
              "\nSelected Option Details:\n" ++ wopt.description
            Except.ok
              ({ d with winning_option_id := w.fst
                        winning_option := some wopt
                        final_decision := finalText }, some w.fst)

/-- `submit_agent_vote`.  The auto-tally after the threshold is the code's
`if len(votes) >= len(participating_agents): calculate_ranked_choice_winner(...)`;
a KeyError escaping the tally leaves the freshly appended vote in place. -/
def submit_agent_vote (now : Nat) (decision_id agent_name : String)
    (ranked_option_ids : List String) (reasoning : String) (s : EngineState) :
    Except Unit Bool × EngineState :=
  match lookupA s.active_decisions decision_id with
  | none => (Except.ok false, s)
  | some d =>
    if d.current_phase ≠ VotingPhase.ranked_voting then (Except.ok false, s)
    else if agent_name ∉ d.participating_agents then (Except.ok false, s)
    else if agent_name ∈ d.votes.map AgentVote.agent_name then (Except.ok false, s)
    else if ¬ (∀ oid ∈ ranked_option_ids, oid ∈ d.voting_options.map VotingOption.option_id) then
      (Except.ok false, s)
    else
      let d2 := { d with votes := d.votes ++ [⟨agent_name, ranked_option_ids, reasoning, now⟩] }
      if d2.participating_agents.length ≤ d2.votes.length then
        match calculate_ranked_choice_winner d2 with
        | Except.error e =>
          (Except.error e, ⟨setA s.active_decisions decision_id d2, s.completed_decisions⟩)
        | Except.ok (d3, _) =>
          (Except.ok true, ⟨setA s.active_decisions decision_id d3, s.completed_decisions⟩)
      else (Except.ok true, ⟨setA s.active_decisions decision_id d2, s.completed_decisions⟩)

/-- `finalize_decision`.  `final_decision_text` defaults to `None`; the
Python guard `if final_decision_text:` also skips the empty string. -/
def finalize_decision (now : Nat) (decision_id : String)
    (final_decision_text : Option String) (s : EngineState) : Bool × EngineState :=
  match lookupA s.active_decisions decision_id with
  | none => (false, s)
  | some d =>
    let d2 :=
      match final_decision_text with
      | some t => if t ≠ "" then { d with final_decision := t } else d
      | none => d
    let d3 := { d2 with end_time := some now, current_phase := VotingPhase.commitment }
    (true, ⟨delA s.active_decisions decision_id, s.completed_decisions ++ [d3]⟩)

/-- First completed decision with a given id (the generator expression inside
`get_decision_status`). -/
def findById : List DemocraticDecision → String → Option DemocraticDecision
  | [], _ => none
  | d :: t, k => if d.decision_id = k then some d else findById t k

/-- `get_decision_status`: active storage first, then completed storage.  The
Python function returns `to_dict()` snapshots; since `to_dict` is determined
by the record we return the record itself. -/
def get_decision_status (decision_id : String) (s : EngineState) :
    Option DemocraticDecision :=
  match lookupA s.active_decisions decision_id with
  | some d => some d
  | none => findById s.completed_decisions decision_id

/-- `advance_phase` (any target phase is accepted for an active decision). -/
def advance_phase (decision_id : String) (ph : VotingPhase) (s : EngineState) :
    Bool × EngineState :=
  match lookupA s.active_decisions decision_id with
  | none => (false, s)
  | some d =>
    (true, ⟨setA s.active_decisions decision_id { d with current_phase := ph },
      s.completed_decisions⟩)

/-- One public engine operation together with its inputs (the wall-clock
value each call observes is part of the operation). -/
inductive EngineOp where
  | trigger (now : Nat) (ct : ConflictType) (reason ctx : String) (agents : List String)
  | advance (id : String) (ph : VotingPhase)
  | propose (now : Nat) (id agent proposal reasoning : String)
  | synth (id : String) (inputs : List SynthInput)
  | vote (now : Nat) (id agent : String) (ranked : List String) (reasoning : String)
  | finalize (now : Nat) (id : String) (text : Option String)
  deriving DecidableEq

/-- State transition of a single engine operation (results discarded). -/
def stepOp (s : EngineState) : EngineOp → EngineState
  | .trigger now ct r c ags => (trigger_democratic_decision now ct r c ags s).2
  | .advance id ph => (advance_phase id ph s).2
  | .propose now id a p r => (add_agent_proposal now id a p r s).2
  | .synth id ins => (synthesize_options id ins s).2
  | .vote now id a rk r => (submit_agent_vote now id a rk r s).2
  | .finalize now id t => (finalize_decision now id t s).2

/-- Run a sequence of engine operations. -/
def runOps (s : EngineState) (ops : List EngineOp) : EngineState := ops.foldl stepOp s

/-- States reachable from a fresh engine by public operations. -/
def Reachable (s : EngineState) : Prop := ∃ ops, runOps initEngine ops = s

/-! ### synthesis_tools.py : ProposalSynthesisLogic -/

/-- ASCII-faithful model of Python `str.lower()` (list-based so that it
reduces definitionally). -/
def pyLower (s : String) : String := String.mk (s.toList.map Char.toLower)

/-- Bool test: `needle` is a prefix of `hay` (over character lists). -/
def listPrefixAt : List Char → List Char → Bool
  | [], _ => true
  | _ :: _, [] => false
  | a :: as, b :: bs => a == b && listPrefixAt as bs

/-- Bool test: `needle` occurs as a contiguous substring (Python `in` on
strings). -/
def listHasSub (needle : List Char) : List Char → Bool
  | [] => needle.isEmpty
  | b :: t => listPrefixAt needle (b :: t) || listHasSub needle t

/-- Python `needle in hay` on strings. -/
def strHas (hay needle : String) : Bool := listHasSub needle.toList hay.toList

/-- Python `any(word in text for word in kws)`. -/
def anyKeyword (text : String) (kws : List String) : Bool :=
  kws.any (fun k => strHas text k)

/-- Dataclass `ProposalCluster`. -/
structure ProposalCluster where
  theme : String
  description : String
  contributing_agents : List String
  merged_reasoning : String
  representative_proposal : String
  deriving DecidableEq

/-- First keyword group of `cluster_similar_proposals`. -/
def metaKeywords : List String := ["meta", "documentation", "process", "showcase", "creation"]

/-- Second keyword group of `cluster_similar_proposals`. -/
def overviewKeywords : List String := ["about", "overview", "general", "mission", "contact"]

/-- Third keyword group of `cluster_similar_proposals`. -/
def technicalKeywords : List String := ["technical", "architecture", "code", "development"]

/-- Theme assignment of `cluster_similar_proposals`: the groups are tested in
order on the lower-cased `proposal + " " + reasoning` text, the first match
wins, the fallback is `"general"`. -/
def primaryTheme (p : AgentProposal) : String :=
  let text := pyLower (p.proposal ++ " " ++ p.reasoning)
  if anyKeyword text metaKeywords then "meta_documentation"
  else if anyKeyword text overviewKeywords then "overview_approach"
  else if anyKeyword text technicalKeywords then "technical_focus"
  else "general"

/-- A cluster as first created for a theme. -/
def emptyCluster (theme : String) : ProposalCluster := ⟨theme, "", [], "", ""⟩

/-- The per-proposal mutation of a cluster: append the agent, then either
initialise `representative_proposal`/`merged_reasoning` (the Python guard is
`if not cluster.representative_proposal:`, i.e. the empty string counts as
unset) or append `" | agent: reasoning"` to `merged_reasoning`. -/
def addToCluster (c : ProposalCluster) (p : AgentProposal) : ProposalCluster :=
  let c1 := { c with contributing_agents := c.contributing_agents ++ [p.agent_name] }
  if c1.representative_proposal = "" then
    { c1 with representative_proposal := p.proposal
              merged_reasoning := p.reasoning }
  else
    { c1 with merged_reasoning :=
        c1.merged_reasoning ++ " | " ++ p.agent_name ++ ": " ++ p.reasoning }

/-- One iteration of the proposal loop of `cluster_similar_proposals` on the
`clusters` dict. -/
def clusterStepA (acc : List (String × ProposalCluster)) (p : AgentProposal) :
    List (String × ProposalCluster) :=
  let t := primaryTheme p
  match lookupA acc t with
  | none => acc ++ [(t, addToCluster (emptyCluster t) p)]
  | some c => setA acc t (addToCluster c p)

/-- `cluster_similar_proposals` (returning `list(clusters.values())`). -/
def cluster_similar_proposals (ps : List AgentProposal) : List ProposalCluster :=
  (ps.foldl clusterStepA []).map Prod.snd

/-- Comparison used to model
`sorted(clusters, key=lambda c: len(c.contributing_agents), reverse=True)`. -/
def clusterGeCount (a b : ProposalCluster) : Prop :=
  b.contributing_agents.length ≤ a.contributing_agents.length

instance : DecidableRel clusterGeCount := fun _ _ => Nat.decLe _ _

/-- Python's `sorted(..., key=len(contributing_agents), reverse=True)`:
the unique stable descending sort, realised by insertion sort over the total
preorder `clusterGeCount`. -/
def sortClusters (cs : List ProposalCluster) : List ProposalCluster :=
  List.insertionSort clusterGeCount cs

instance : IsTotal ProposalCluster clusterGeCount :=
  ⟨fun a b => Nat.le_total b.contributing_agents.length a.contributing_agents.length⟩

instance : IsTrans ProposalCluster clusterGeCount :=
  ⟨fun _ _ _ hab hbc => le_trans hbc hab⟩

/-- The fixed `theme_titles` lookup table of `_generate_option_title`. -/
def themeTitles : List (String × String) :=
  [("meta_documentation", "Meta-Documentation Approach"),
   ("overview_approach", "General Overview Approach"),
   ("technical_focus", "Technical-Focused Approach"),
   ("collaboration", "Collaboration-Centered Approach"),
   ("general", "Hybrid Approach")]

/-- Helper for `pyTitle`: tracks whether the previous character was
alphabetic. -/
def pyTitleGo : List Char → Bool → List Char
  | [], _ => []
  | c :: t, prevAlpha =>
    (if c.isAlpha then (if prevAlpha then c.toLower else c.toUpper) else c) ::
      pyTitleGo t c.isAlpha

/-- ASCII-faithful model of Python `str.title()`. -/
def pyTitle (s : String) : String := String.mk (pyTitleGo s.toList false)

/-- `_generate_option_title`; `cluster.contributing_agents[0]` raises
IndexError on an empty list. -/
def gen_option_title (c : ProposalCluster) : Except Unit String :=
  let base := (lookupA themeTitles c.theme).getD (pyTitle c.theme ++ " Approach")
  if 1 < c.contributing_agents.length then Except.ok (base ++ " (Team Consensus)")
  else
    match c.contributing_agents with
    | [] => Except.error ()
    | a :: _ => Except.ok (base ++ " (" ++ a ++ " Proposal)")

/-- `_generate_option_description`; `cluster.contributing_agents[0]` raises
IndexError on an empty list. -/
def gen_option_description (c : ProposalCluster) : Except Unit String :=
  if 1 < c.contributing_agents.length then
    Except.ok (c.representative_proposal ++ "\n\nSupported by: " ++
      String.intercalate ", " c.contributing_agents ++
      "\nCombined reasoning: " ++ c.merged_reasoning)
  else
    match c.contributing_agents with
    | [] => Except.error ()
    | a :: _ =>
      Except.ok (c.representative_proposal ++ "\n\nProposed by: " ++ a ++
        "\nReasoning: " ++ c.merged_reasoning)

/-- One output dict of `generate_voting_options`. -/
structure GeneratedOption where
  title : String
  description : String
  source_proposals : List String
  rationale : String
  deriving DecidableEq

/-- The option dict built for one cluster inside the loop of
`generate_voting_options`. -/
def mkGeneratedOption (c : ProposalCluster) : Except Unit GeneratedOption :=
  match gen_option_title c with
  | Except.error e => Except.error e
  | Except.ok t =>
    match gen_option_description c with
    | Except.error e => Except.error e
    | Except.ok desc => Except.ok ⟨t, desc, c.contributing_agents, c.merged_reasoning⟩

/-- `generate_voting_options`: stable-descending sort by number of
contributing agents, truncation to `max_options`, then the option dicts in
that order. -/
def generate_voting_options (cs : List ProposalCluster) (max_options : Nat) :
    Except Unit (List GeneratedOption) :=
  ((sortClusters cs).take max_options).mapM mkGeneratedOption

/-- Total rendering of one cluster as an option dict; agrees with
`mkGeneratedOption` whenever the cluster has a contributing agent. -/
def totalGen (c : ProposalCluster) : GeneratedOption :=
  ⟨((gen_option_title c).toOption).getD "",
    ((gen_option_description c).toOption).getD "",
    c.contributing_agents, c.merged_reasoning⟩

/-! ### Claim-side (spec-worded) definitions

These restate parts of the specification in its own words, to be compared
with the source embedding above. -/

/-- Points a single vote contributes to the option id `oid`: the sum of
`n - rank` over every 0-indexed position `rank < n` of the ballot at which
`oid` appears (spec section 4.4; positions beyond `n` are truncated). -/
def voteContribution (n : Nat) (v : AgentVote) (oid : String) : Nat :=
  ((v.ranked_options.take n).enum.map (fun p => if p.2 = oid then n - p.1 else 0)).sum

/-- Aggregate Borda score of an option id for a decision, straight from the
spec's formula. -/
def bordaScore (d : DemocraticDecision) (oid : String) : Nat :=
  (d.votes.map (fun v => voteContribution d.voting_options.length v oid)).sum

/-- First maximum of `f` encountered in a single left-to-right scan of `ids`
(the spec's tie-break rule). -/
def firstMaxBy (f : String → Nat) : List String → Option String
  | [] => none
  | a :: t => some (t.foldl (fun b i => if f i > f b then i else b) a)

/-- The winner the spec predicts: first maximum of the aggregate score,
scanning option ids in voting-option creation order. -/
def winnerId (d : DemocraticDecision) : String :=
  (firstMaxBy (bordaScore d) (d.voting_options.map VotingOption.option_id)).getD ""

/-- The score table the spec predicts for the tally (one entry per distinct
option id, in creation order). -/
def scoreTable (d : DemocraticDecision) : List (String × Nat) :=
  (pyDedup (d.voting_options.map VotingOption.option_id)).map
    (fun k => (k, bordaScore d k))

/-- Every stored ballot references only existing option ids. -/
def ValidVotes (d : DemocraticDecision) : Prop :=
  ∀ v ∈ d.votes, ∀ oid ∈ v.ranked_options,
    oid ∈ d.voting_options.map VotingOption.option_id

instance (d : DemocraticDecision) : Decidable (ValidVotes d) := by
  unfold ValidVotes; infer_instance

/-- Total description of one final-score line (agrees with `scoreLine`
whenever the option id resolves). -/
def lineOf (opts : List VotingOption) (p : String × Nat) : String :=
  match findOpt opts p.1 with
  | none => ""
  | some o => "- " ++ o.title ++ ": " ++ toString p.2 ++ " points\n"

/-- The final-decision text the spec predicts, expressed with the
spec-side score table. -/
def finalTextOf (d : DemocraticDecision) : String :=
  match findOpt d.voting_options (winnerId d) with
  | none => ""
  | some wopt =>
    "DEMOCRATIC DECISION COMPLETE!\n\nWinner: " ++ wopt.title ++
      "\n\nFinal Scores:\n" ++
      String.join ((sortScoresDesc (scoreTable d)).map (lineOf d.voting_options)) ++
      "\nSelected Option Details:\n" ++ wopt.description

/-- The decision record the spec predicts after a successful tally. -/
def tallied (d : DemocraticDecision) : DemocraticDecision :=
  { d with winning_option_id := winnerId d
           winning_option := findOpt d.voting_options (winnerId d)
           final_decision := finalTextOf d }

/-- Per-decision invariant: vote agent names are pairwise distinct and every
voter is a participating agent. -/
def GoodDecision (d : DemocraticDecision) : Prop :=
  (d.votes.map AgentVote.agent_name).Nodup ∧
    ∀ v ∈ d.votes, v.agent_name ∈ d.participating_agents

/-- Engine-wide invariant: the active dict has no duplicate keys, and every
stored decision satisfies the per-decision invariant. -/
def GoodState (s : EngineState) : Prop :=
  (s.active_decisions.map Prod.fst).Nodup ∧
    (∀ p ∈ s.active_decisions, GoodDecision p.2) ∧
    ∀ d ∈ s.completed_decisions, GoodDecision d

/-- Does this operation generate exactly the id `id` as a fresh decision id? -/
def TriggersId (op : EngineOp) (id : String) : Prop :=
  match op with
  | .trigger now ct _ _ _ => "decision_" ++ toString now ++ "_" ++ ct.value = id
  | _ => False

/-- Grouping of proposals predicted by the (amended) claim C8: themes in
order of first appearance, each theme's cluster folded from exactly the
proposals of that theme, in arrival order. -/
def clustersByTheme (ps : List AgentProposal) : List ProposalCluster :=
  (pyDedup (ps.map primaryTheme)).map (fun t =>
    (ps.filter (fun p => primaryTheme p = t)).foldl addToCluster (emptyCluster t))

deriving instance DecidableEq for Except

/-- The scan underlying `firstMaxBy` (and Python's `max`), with an explicit
running best element. -/
def foldMax (f : String → Nat) (b : String) (t : List String) : String :=
  t.foldl (fun b i => if f i > f b then i else b) b

instance (op : EngineOp) (id : String) : Decidable (TriggersId op id) := by
  cases op <;> simp only [TriggersId] <;> infer_instance

/-- Placeholder record used only as a `getD` default when reading a lookup
that is known to succeed. -/
def fallbackDecision : DemocraticDecision :=
  ⟨"", ConflictType.manual_trigger, "", "", [], [], [], "", none, "", 0, none,
    VotingPhase.context_loading, []⟩

/-- The decision record after finalization with optional text `txt` at time
`now` (the effect `finalize_decision` applies to the stored record). -/
def finRecord (d : DemocraticDecision) (txt : Option String) (now : Nat) :
    DemocraticDecision :=
  let d2 :=
    match txt with
    | some t => if t ≠ "" then { d with final_decision := t } else d
    | none => d
  { d2 with end_time := some now, current_phase := VotingPhase.commitment }

/-- 3-option decision holding the three cyclic ballots of the spec's tally
determinism scenario. -/
def cyclicDecision : DemocraticDecision :=
  ⟨"d", ConflictType.manual_trigger, "", "", [],
    [⟨"o1", "T1", "D1", []⟩, ⟨"o2", "T2", "D2", []⟩, ⟨"o3", "T3", "D3", []⟩],
    [⟨"A", ["o1", "o2", "o3"], "", 0⟩, ⟨"B", ["o2", "o3", "o1"], "", 0⟩,
      ⟨"C", ["o3", "o1", "o2"], "", 0⟩],
    "", none, "", 0, none, VotingPhase.ranked_voting, ["A", "B", "C"]⟩

/-- One option, no votes yet: the tally's first guard returns `None`. -/
def noVotesDecision : DemocraticDecision :=
  ⟨"d", ConflictType.manual_trigger, "", "", [], [⟨"o1", "T1", "D1", []⟩], [],
    "", none, "", 0, none, VotingPhase.ranked_voting, []⟩

/-- The single stored vote references an option id that does not exist, so
`option_scores["bogus"] += points` raises KeyError. -/
def alienVoteDecision : DemocraticDecision :=
  ⟨"d", ConflictType.manual_trigger, "", "", [], [⟨"o1", "T1", "D1", []⟩],
    [⟨"A", ["bogus"], "", 0⟩], "", none, "", 0, none,
    VotingPhase.ranked_voting, ["A"]⟩

/-- Run that stores a two-option ballot and then re-synthesizes a single
option, leaving the stored ballot referencing the vanished `option_2`. -/
def staleBallotOps : List EngineOp :=
  [EngineOp.trigger 1 ConflictType.manual_trigger "r" "c" ["A", "B"],
   EngineOp.advance "decision_1_manual_trigger" VotingPhase.synthesis,
   EngineOp.synth "decision_1_manual_trigger"
     [⟨some "t1", some "d1", none⟩, ⟨some "t2", some "d2", none⟩],
   EngineOp.advance "decision_1_manual_trigger" VotingPhase.ranked_voting,
   EngineOp.vote 2 "decision_1_manual_trigger" "A" ["option_1", "option_2"] "x",
   EngineOp.advance "decision_1_manual_trigger" VotingPhase.synthesis,
   EngineOp.synth "decision_1_manual_trigger" [⟨some "t3", some "d3", none⟩]]

/-- One participant, phase RANKED_VOTING, but no voting options synthesized. -/
def emptyOptionVoteOps : List EngineOp :=
  [EngineOp.trigger 1 ConflictType.manual_trigger "r" "c" ["A"],
   EngineOp.advance "decision_1_manual_trigger" VotingPhase.ranked_voting]

/-- The state reached by `emptyOptionVoteOps`. -/
def emptyOptionsVoteState : EngineState := runOps initEngine emptyOptionVoteOps

/-- One participant, one synthesized option, phase RANKED_VOTING. -/
def oneOptionOps : List EngineOp :=
  [EngineOp.trigger 1 ConflictType.manual_trigger "r" "c" ["A"],
   EngineOp.advance "decision_1_manual_trigger" VotingPhase.synthesis,
   EngineOp.synth "decision_1_manual_trigger" [⟨some "t1", some "d1", none⟩],
   EngineOp.advance "decision_1_manual_trigger" VotingPhase.ranked_voting]

/-- The state reached by `oneOptionOps`. -/
def oneOptionState : EngineState := runOps initEngine oneOptionOps

/-- The decision stored in `oneOptionState`. -/
def oneOptionDecision : DemocraticDecision :=
  (lookupA oneOptionState.active_decisions "decision_1_manual_trigger").getD
    fallbackDecision

/-- `oneOptionOps` followed by the single participant's (duplicate-free)
ballot, which reaches the threshold and auto-runs the tally. -/
def postVoteOps : List EngineOp :=
  oneOptionOps ++ [EngineOp.vote 2 "decision_1_manual_trigger" "A" ["option_1"] "x"]

/-- The state reached by `postVoteOps`. -/
def postVoteState : EngineState := runOps initEngine postVoteOps

/-- The decision stored in `postVoteState`. -/
def postVoteDecision : DemocraticDecision :=
  (lookupA postVoteState.active_decisions "decision_1_manual_trigger").getD
    fallbackDecision

/-- Finalize a decision, then trigger a second decision in the same epoch
second with the same conflict type: the generated id collides with the
completed one. -/
def retriggerOps : List EngineOp :=
  [EngineOp.trigger 5 ConflictType.manual_trigger "r1" "c" ["A"],
   EngineOp.finalize 6 "decision_5_manual_trigger" none,
   EngineOp.trigger 5 ConflictType.manual_trigger "r2" "c" ["A"],
   EngineOp.advance "decision_5_manual_trigger" VotingPhase.idea_collection]

/-- The state reached by `retriggerOps`. -/
def retriggerState : EngineState := runOps initEngine retriggerOps

/-- Proposal with an empty proposal text (only reasoning "x"). -/
def emptyTextProposalA : AgentProposal := ⟨"A", "", "x", 0⟩

/-- Second proposal with an empty proposal text (only reasoning "y"). -/
def emptyTextProposalB : AgentProposal := ⟨"B", "", "y", 0⟩

/-- Two clusters with 1 and 2 contributing agents, for the C9 witness. -/
def sampleClusters : List ProposalCluster :=
  [⟨"general", "", ["A"], "r1", "p1"⟩,
   ⟨"meta_documentation", "", ["B", "C"], "r2", "p2"⟩]

/-- Every active entry is stored under its own decision id. -/
def KeysConsistent (s : EngineState) : Prop :=
  ∀ p ∈ s.active_decisions, p.2.decision_id = p.1

/-- One participant, two synthesized options, phase RANKED_VOTING. -/
def twoOptionOps : List EngineOp :=
  [EngineOp.trigger 1 ConflictType.manual_trigger "r" "c" ["A"],
   EngineOp.advance "decision_1_manual_trigger" VotingPhase.synthesis,
   EngineOp.synth "decision_1_manual_trigger"
     [⟨some "t1", none, none⟩, ⟨some "t2", none, none⟩],
   EngineOp.advance "decision_1_manual_trigger" VotingPhase.ranked_voting]

/-- The state reached by `twoOptionOps`. -/
def twoOptionState : EngineState := runOps initEngine twoOptionOps

/-- The decision stored in `twoOptionState`. -/
def twoOptionDecision : DemocraticDecision :=
  (lookupA twoOptionState.active_decisions "decision_1_manual_trigger").getD
    fallbackDecision

/-- A single freshly triggered decision. -/
def soloOps : List EngineOp :=
  [EngineOp.trigger 1 ConflictType.manual_trigger "r" "c" ["A"]]

/-- The state reached by `soloOps`. -/
def soloState : EngineState := runOps initEngine soloOps

/-- The decision stored in `soloState`. -/
def soloDecision : DemocraticDecision :=
  (lookupA soloState.active_decisions "decision_1_manual_trigger").getD
    fallbackDecision

/-! ### Association-list lemmas -/

theorem lookupA_setA_self {α : Type} (l : List (String × α)) (k : String) (v : α) :
    lookupA (setA l k v) k = some v := by
  induction l with
  | nil => simp [setA, lookupA]
  | cons p t ih =>
    by_cases h : p.1 = k
    · simp [setA, h, lookupA]
    · simp [setA, h, lookupA, ih]

theorem lookupA_setA_ne {α : Type} (l : List (String × α)) {k k' : String} (v : α)
    (h : k' ≠ k) : lookupA (setA l k v) k' = lookupA l k' := by
  have hk : ¬ k = k' := fun hh => h hh.symm
  induction l with
  | nil => simp [setA, lookupA, hk]
  | cons p t ih =>
    by_cases hp : p.1 = k
    · have hp' : ¬ p.1 = k' := by rw [hp]; exact hk
      simp [setA, hp, lookupA, hk, hp']
    · simp only [setA, if_neg hp, lookupA]
      by_cases hp' : p.1 = k'
      · simp [hp']
      · simp [hp', ih]

theorem mem_setA {α : Type} {l : List (String × α)} {k : String} {v : α}
    {p : String × α} (h : p ∈ setA l k v) : p = (k, v) ∨ p ∈ l := by
  induction l with
  | nil => simpa [setA] using h
  | cons q t ih =>
    by_cases hq : q.1 = k
    · simp only [setA, if_pos hq, List.mem_cons] at h
      rcases h with h | h
      · exact Or.inl h
      · exact Or.inr (List.mem_cons_of_mem _ h)
    · simp only [setA, if_neg hq, List.mem_cons] at h
      rcases h with h | h
      · exact Or.inr (h ▸ List.mem_cons_self _ _)
      · rcases ih h with h2 | h2
        · exact Or.inl h2
        · exact Or.inr (List.mem_cons_of_mem _ h2)

theorem keys_setA_mem {α : Type} {l : List (String × α)} {k : String}
    (h : k ∈ l.map Prod.fst) (v : α) :
    (setA l k v).map Prod.fst = l.map Prod.fst := by
  induction l with
  | nil => simp at h
  | cons q t ih =>
    by_cases hq : q.1 = k
    · simp [setA, hq]
    · simp only [List.map_cons, List.mem_cons] at h
      rcases h with h | h
      · exact absurd h.symm hq
      · simp [setA, hq, ih h]

theorem keys_setA_not_mem {α : Type} {l : List (String × α)} {k : String}
    (h : k ∉ l.map Prod.fst) (v : α) :
    (setA l k v).map Prod.fst = l.map Prod.fst ++ [k] := by
  induction l with
  | nil => simp [setA]
  | cons q t ih =>
    simp only [List.map_cons, List.mem_cons] at h
    push_neg at h
    have hq : ¬ q.1 = k := fun hh => h.1 hh.symm
    simp [setA, hq, ih h.2]

theorem lookupA_none_iff {α : Type} (l : List (String × α)) (k : String) :
    lookupA l k = none ↔ k ∉ l.map Prod.fst := by
  induction l with
  | nil => simp [lookupA]
  | cons q t ih =>
    by_cases hq : q.1 = k
    · simp [lookupA, hq]
    · have hq' : ¬ k = q.1 := fun hh => hq hh.symm
      simp [lookupA, hq, ih, hq']

theorem lookupA_mem {α : Type} {l : List (String × α)} {k : String} {v : α}
    (h : lookupA l k = some v) : (k, v) ∈ l := by
  induction l with
  | nil => simp [lookupA] at h
  | cons q t ih =>
    by_cases hq : q.1 = k
    · simp only [lookupA, if_pos hq, Option.some.injEq] at h
      subst h
      exact hq ▸ List.mem_cons_self _ _
    · simp only [lookupA, if_neg hq] at h
      exact List.mem_cons_of_mem _ (ih h)

theorem mem_delA {α : Type} {l : List (String × α)} {k : String} {p : String × α}
    (h : p ∈ delA l k) : p ∈ l := by
  induction l with
  | nil => simp [delA] at h
  | cons q t ih =>
    by_cases hq : q.1 = k
    · simp only [delA, if_pos hq] at h
      exact List.mem_cons_of_mem _ h
    · simp only [delA, if_neg hq, List.mem_cons] at h
      rcases h with h | h
      · exact h ▸ List.mem_cons_self _ _
      · exact List.mem_cons_of_mem _ (ih h)

theorem keys_delA_sublist {α : Type} (l : List (String × α)) (k : String) :
    List.Sublist ((delA l k).map Prod.fst) (l.map Prod.fst) := by
  induction l with
  | nil => simp [delA]
  | cons q t ih =>
    by_cases hq : q.1 = k
    · simp only [delA, if_pos hq, List.map_cons]
      exact (List.sublist_cons_self _ _)
    · simp only [delA, if_neg hq, List.map_cons]
      exact ih.cons₂ _

theorem lookupA_delA_self {α : Type} {l : List (String × α)} {k : String}
    (h : (l.map Prod.fst).Nodup) : lookupA (delA l k) k = none := by
  induction l with
  | nil => simp [delA, lookupA]
  | cons q t ih =>
    simp only [List.map_cons, List.nodup_cons] at h
    by_cases hq : q.1 = k
    · simp only [delA, if_pos hq]
      rw [lookupA_none_iff]
      exact hq ▸ h.1
    · simp [delA, hq, lookupA, ih h.2]

theorem lookupA_delA_ne {α : Type} (l : List (String × α)) {k k' : String}
    (h : k' ≠ k) : lookupA (delA l k') k = lookupA l k := by
  induction l with
  | nil => simp [delA]
  | cons q t ih =>
    by_cases hq : q.1 = k'
    · have hqk : ¬ q.1 = k := by rw [hq]; exact h
      simp [delA, hq, lookupA, hqk, h]
    · simp only [delA, if_neg hq, lookupA]
      by_cases hk : q.1 = k
      · simp [hk]
      · simp [hk, ih]

theorem setA_eq_map_of_nodup {α : Type} {l : List (String × α)} {k : String} {c : α}
    (hn : (l.map Prod.fst).Nodup) (hl : lookupA l k = some c) (v : α) :
    setA l k v = l.map (fun q => if q.1 = k then (k, v) else q) := by
  induction l with
  | nil => simp [lookupA] at hl
  | cons q t ih =>
    simp only [List.map_cons, List.nodup_cons] at hn
    by_cases hq : q.1 = k
    · have ht : ∀ p ∈ t, ¬ p.1 = k := by
        intro p hp hpk
        exact hn.1 (hq ▸ hpk ▸ (List.mem_map_of_mem Prod.fst hp))
      have hmap : t.map (fun q => if q.1 = k then (k, v) else q) = t.map id := by
        apply List.map_congr_left
        intro p hp
        simp [ht p hp]
      simp only [List.map_id] at hmap
      simp [setA, hq, hmap]
    · simp only [lookupA, if_neg hq] at hl
      simp [setA, hq, ih hn.2 hl]

/-! ### findById lemmas -/

theorem findById_append_some {l : List DemocraticDecision} {k : String}
    {d : DemocraticDecision} (h : findById l k = some d) (l2 : List DemocraticDecision) :
    findById (l ++ l2) k = some d := by
  induction l with
  | nil => simp [findById] at h
  | cons q t ih =>
    by_cases hq : q.decision_id = k
    · simp only [findById, if_pos hq, Option.some.injEq] at h
      subst h
      simp [findById, hq]
    · simp only [findById, if_neg hq] at h
      simpa [findById, hq] using ih h

theorem findById_append_none {l : List DemocraticDecision} {k : String}
    (h : findById l k = none) (l2 : List DemocraticDecision) :
    findById (l ++ l2) k = findById l2 k := by
  induction l with
  | nil => simp [findById]
  | cons q t ih =>
    by_cases hq : q.decision_id = k
    · simp [findById, hq] at h
    · simp only [findById, if_neg hq] at h
      simpa [findById, hq] using ih h

/-! ### pyDedup lemmas -/

theorem pyDedupAux_congr_seen : ∀ (t seen1 seen2 : List String),
    (∀ y, y ∈ seen1 ↔ y ∈ seen2) → pyDedupAux t seen1 = pyDedupAux t seen2 := by
  intro t
  induction t with
  | nil => intro _ _ _; rfl
  | cons x t ih =>
    intro seen1 seen2 hset
    rw [pyDedupAux, pyDedupAux]
    by_cases hx : x ∈ seen1
    · rw [if_pos hx, if_pos ((hset x).mp hx)]
      exact ih seen1 seen2 hset
    · rw [if_neg hx, if_neg (fun hh => hx ((hset x).mpr hh))]
      congr 1
      apply ih
      intro y
      simp only [List.mem_cons, hset y]

theorem pyDedupAux_mem_erase (a : String) : ∀ (t seen : List String), a ∈ seen →
    pyDedupAux t seen = pyDedupAux (t.filter (fun x => x ≠ a)) seen := by
  intro t
  induction t with
  | nil => intro seen _; rfl
  | cons x t ih =>
    intro seen ha
    by_cases hx : x = a
    · subst hx
      rw [List.filter_cons_of_neg (by simp)]
      rw [pyDedupAux, if_pos ha]
      exact ih seen ha
    · rw [List.filter_cons_of_pos (by simp [hx])]
      by_cases hseen : x ∈ seen
      · rw [pyDedupAux, if_pos hseen, pyDedupAux, if_pos hseen]
        exact ih seen ha
      · rw [pyDedupAux, if_neg hseen, pyDedupAux, if_neg hseen]
        rw [ih (x :: seen) (List.mem_cons_of_mem _ ha)]

theorem pyDedupAux_cons_notmem (a : String) : ∀ (t seen : List String),
    (∀ x ∈ t, x ≠ a) → pyDedupAux t (a :: seen) = pyDedupAux t seen := by
  intro t
  induction t with
  | nil => intro seen _; rfl
  | cons x t ih =>
    intro seen hx
    have hxa : ¬ x = a := hx x (List.mem_cons_self _ _)
    rw [pyDedupAux, pyDedupAux]
    by_cases hseen : x ∈ seen
    · rw [if_pos (List.mem_cons_of_mem _ hseen), if_pos hseen]
      exact ih seen (fun y hy => hx y (List.mem_cons_of_mem _ hy))
    · have hx1 : x ∉ (a :: seen) := by
        simp only [List.mem_cons]
        push_neg
        exact ⟨hxa, hseen⟩
      rw [if_neg hx1, if_neg hseen]
      congr 1
      have hswap : pyDedupAux t (x :: a :: seen) = pyDedupAux t (a :: x :: seen) := by
        apply pyDedupAux_congr_seen
        intro y
        simp only [List.mem_cons]
        constructor
        · rintro (h | h | h)
          · exact Or.inr (Or.inl h)
          · exact Or.inl h
          · exact Or.inr (Or.inr h)
        · rintro (h | h | h)
          · exact Or.inr (Or.inl h)
          · exact Or.inl h
          · exact Or.inr (Or.inr h)
      rw [hswap]
      exact ih (x :: seen) (fun y hy => hx y (List.mem_cons_of_mem _ hy))

theorem pyDedup_nil : pyDedup [] = [] := rfl

theorem pyDedup_cons (a : String) (t : List String) :
    pyDedup (a :: t) = a :: pyDedup (t.filter (fun x => x ≠ a)) := by
  rw [pyDedup, pyDedupAux, if_neg (by simp)]
  rw [pyDedup]
  congr 1
  rw [pyDedupAux_mem_erase a t [a] (by simp)]
  apply pyDedupAux_cons_notmem
  intro x hx
  have h2 := List.mem_filter.mp hx
  simpa using h2.2

theorem pyDedup_mem (x : String) : ∀ l : List String, x ∈ pyDedup l ↔ x ∈ l := by
  have key : ∀ (n : Nat) (l : List String), l.length ≤ n → (x ∈ pyDedup l ↔ x ∈ l) := by
    intro n
    induction n with
    | zero =>
      intro l hl
      cases l with
      | nil => simp [pyDedup_nil]
      | cons a t => simp at hl
    | succ n ih =>
      intro l hl
      cases l with
      | nil => simp [pyDedup_nil]
      | cons a t =>
        rw [pyDedup_cons]
        by_cases hx : x = a
        · simp [hx]
        · have hlen : (t.filter (fun y => y ≠ a)).length ≤ n :=
            le_trans (List.length_filter_le _ _) (Nat.le_of_succ_le_succ hl)
          simp only [List.mem_cons, hx, false_or, ih _ hlen, List.mem_filter]
          constructor
          · exact fun h => h.1
          · exact fun h => ⟨h, by simpa using hx⟩
  exact fun l => key l.length l (le_refl _)

theorem pyDedup_nodup : ∀ l : List String, (pyDedup l).Nodup := by
  have key : ∀ (n : Nat) (l : List String), l.length ≤ n → (pyDedup l).Nodup := by
    intro n
    induction n with
    | zero =>
      intro l hl
      cases l with
      | nil => rw [pyDedup_nil]; exact List.nodup_nil
      | cons a t => simp at hl
    | succ n ih =>
      intro l hl
      cases l with
      | nil => rw [pyDedup_nil]; exact List.nodup_nil
      | cons a t =>
        rw [pyDedup_cons]
        have hlen : (t.filter (fun y => y ≠ a)).length ≤ n :=
          le_trans (List.length_filter_le _ _) (Nat.le_of_succ_le_succ hl)
        refine List.nodup_cons.mpr ⟨?_, ih _ hlen⟩
        intro hmem
        rcases List.mem_filter.mp ((pyDedup_mem a _).mp hmem) with ⟨_, hne⟩
        simp at hne
  exact fun l => key l.length l (le_refl _)

/-! ### foldMax / firstMaxBy lemmas -/

theorem foldMax_le (f : String → Nat) : ∀ (t : List String) (b : String),
    f b ≤ f (foldMax f b t) := by
  intro t
  induction t with
  | nil => intro b; simp [foldMax]
  | cons x t ih =>
    intro b
    simp only [foldMax, List.foldl_cons]
    by_cases hx : f x > f b
    · simpa [foldMax, hx] using le_trans (le_of_lt hx) (ih x)
    · simpa [foldMax, hx] using ih b

theorem foldMax_skip (f : String → Nat) (a : String) : ∀ (t : List String) (b : String),
    f a ≤ f b → foldMax f b (t.filter (fun x => x ≠ a)) = foldMax f b t := by
  intro t
  induction t with
  | nil => intro b _; rfl
  | cons x t ih =>
    intro b hab
    by_cases hx : x = a
    · subst hx
      rw [List.filter_cons_of_neg (by simp)]
      have hstep : (if f x > f b then x else b) = b := by
        simp [Nat.not_lt.mpr hab]
      simp only [foldMax, List.foldl_cons, hstep]
      exact ih b hab
    · rw [List.filter_cons_of_pos (by simp [hx])]
      simp only [foldMax, List.foldl_cons]
      apply ih
      by_cases hfx : f x > f b
      · simpa [hfx] using le_trans hab (le_of_lt hfx)
      · simpa [hfx] using hab

theorem foldMax_pyDedup (f : String → Nat) : ∀ (l : List String) (b : String),
    foldMax f b (pyDedup l) = foldMax f b l := by
  have key : ∀ (n : Nat) (l : List String), l.length ≤ n → ∀ b,
      foldMax f b (pyDedup l) = foldMax f b l := by
    intro n
    induction n with
    | zero =>
      intro l hl b
      cases l with
      | nil => rw [pyDedup_nil]
      | cons a t => simp at hl
    | succ n ih =>
      intro l hl b
      cases l with
      | nil => rw [pyDedup_nil]
      | cons a t =>
        rw [pyDedup_cons]
        simp only [foldMax, List.foldl_cons]
        have hlen : (t.filter (fun x => x ≠ a)).length ≤ n :=
          le_trans (List.length_filter_le _ _) (Nat.le_of_succ_le_succ hl)
        have h1 := ih _ hlen (if f a > f b then a else b)
        simp only [foldMax] at h1
        rw [h1]
        have h2 := foldMax_skip f a t (if f a > f b then a else b) (by
          by_cases hfa : f a > f b
          · simp [hfa]
          · simpa [hfa] using Nat.le_of_not_lt hfa)
        simpa [foldMax] using h2
  exact fun l b => key l.length l (le_refl _) b

theorem firstMaxBy_pyDedup (f : String → Nat) (l : List String) :
    firstMaxBy f (pyDedup l) = firstMaxBy f l := by
  cases l with
  | nil => rw [pyDedup_nil]
  | cons a t =>
    rw [pyDedup_cons]
    simp only [firstMaxBy, Option.some.injEq]
    have h1 : foldMax f a (pyDedup (t.filter (fun x => x ≠ a))) =
        foldMax f a (t.filter (fun x => x ≠ a)) := foldMax_pyDedup f _ a
    have h2 : foldMax f a (t.filter (fun x => x ≠ a)) = foldMax f a t :=
      foldMax_skip f a t a (le_refl _)
    simpa [foldMax] using h1.trans h2

theorem foldMax_mem (f : String → Nat) : ∀ (t : List String) (b : String),
    foldMax f b t = b ∨ foldMax f b t ∈ t := by
  intro t
  induction t with
  | nil => intro b; simp [foldMax]
  | cons x t ih =>
    intro b
    simp only [foldMax, List.foldl_cons]
    by_cases hx : f x > f b
    · rcases ih x with h | h
      · simp only [foldMax] at h
        right
        simp [hx, h]
      · right
        simp only [foldMax] at h
        simp [hx, List.mem_cons, h]
    · rcases ih b with h | h
      · left
        simpa [foldMax, hx] using h
      · right
        simp only [foldMax] at h
        simp [hx, List.mem_cons, h]

theorem firstMaxBy_mem {f : String → Nat} {l : List String} {w : String}
    (h : firstMaxBy f l = some w) : w ∈ l := by
  cases l with
  | nil => simp [firstMaxBy] at h
  | cons a t =>
    simp only [firstMaxBy, Option.some.injEq] at h
    rcases foldMax_mem f t a with h2 | h2
    · rw [← h]
      simp only [foldMax] at h2 ⊢
      rw [h2]
      exact List.mem_cons_self _ _
    · rw [← h]
      simp only [foldMax] at h2 ⊢
      exact List.mem_cons_of_mem _ h2

theorem pyMaxSnd_map (f : String → Nat) (l : List String) :
    pyMaxSnd (l.map (fun k => (k, f k))) =
      (firstMaxBy f l).map (fun w => (w, f w)) := by
  cases l with
  | nil => rfl
  | cons a t =>
    simp only [List.map_cons, pyMaxSnd, firstMaxBy, Option.map_some']
    congr 1
    have : ∀ (t : List String) (b : String),
        (t.map (fun k => (k, f k))).foldl
            (fun best q => if q.2 > best.2 then q else best) (b, f b) =
          (foldMax f b t, f (foldMax f b t)) := by
      intro t
      induction t with
      | nil => intro b; rfl
      | cons x t ih =>
        intro b
        simp only [List.map_cons, List.foldl_cons, foldMax]
        by_cases hx : f x > f b
        · simpa [hx, foldMax] using ih x
        · simpa [hx, foldMax] using ih b
    simpa [foldMax] using this t a

/-! ### Score-table characterization of the tally -/

theorem updateScore_map {keys : List String} (g : String → Nat) {k : String} (p : Nat)
    (hn : keys.Nodup) (hk : k ∈ keys) :
    updateScore (keys.map (fun x => (x, g x))) k p =
      Except.ok (keys.map (fun x => (x, if x = k then g x + p else g x))) := by
  induction keys with
  | nil => simp at hk
  | cons a t ih =>
    simp only [List.nodup_cons] at hn
    by_cases ha : a = k
    · subst ha
      have ht : ∀ x ∈ t, ¬ x = a := fun x hx hxa => hn.1 (hxa ▸ hx)
      have hmap : t.map (fun x => (x, if x = a then g x + p else g x)) =
          t.map (fun x => (x, g x)) := by
        apply List.map_congr_left
        intro x hx
        simp [ht x hx]
      simp [updateScore, hmap]
    · have hkt : k ∈ t := by
        rcases List.mem_cons.mp hk with h | h
        · exact absurd h.symm ha
        · exact h
      simp only [List.map_cons, updateScore, if_neg ha, ih hn.2 hkt]
      simp [Except.map, ha]

theorem foldlM_update (n : Nat) : ∀ (pairs : List (Nat × String)) (keys : List String)
    (g : String → Nat), keys.Nodup → (∀ q ∈ pairs, q.2 ∈ keys) →
    pairs.foldlM (fun acc q => updateScore acc q.2 (n - q.1)) (keys.map (fun x => (x, g x)))
      = Except.ok (keys.map (fun x =>
          (x, g x + (pairs.map (fun q => if q.2 = x then n - q.1 else 0)).sum))) := by
  intro pairs
  induction pairs with
  | nil =>
    intro keys g hn _
    simp only [List.foldlM_nil, List.map_nil, List.sum_nil, Nat.add_zero]
    rfl
  | cons q t ih =>
    intro keys g hn hq
    rw [List.foldlM_cons]
    rw [updateScore_map g (n - q.1) hn (hq q (List.mem_cons_self _ _))]
    have hbind : ∀ (x : List (String × Nat)) (F : List (String × Nat) → Except Unit (List (String × Nat))),
        (Except.ok x >>= F) = F x := fun _ _ => rfl
    rw [hbind]
    rw [ih keys (fun x => if x = q.2 then g x + (n - q.1) else g x) hn
      (fun r hr => hq r (List.mem_cons_of_mem _ hr))]
    congr 1
    apply List.map_congr_left
    intro x _
    by_cases hxq : x = q.2
    · simp [hxq, Nat.add_assoc]
    · have hqx : ¬ q.2 = x := fun hh => hxq hh.symm
      simp [hxq, hqx]

theorem scoreOneVote_map (n : Nat) (v : AgentVote) (keys : List String) (g : String → Nat)
    (hn : keys.Nodup) (hv : ∀ oid ∈ v.ranked_options, oid ∈ keys) :
    scoreOneVote n v (keys.map (fun x => (x, g x))) =
      Except.ok (keys.map (fun x => (x, g x + voteContribution n v x))) := by
  by_cases hr : v.ranked_options = []
  · simp [scoreOneVote, hr, voteContribution]
  · rw [scoreOneVote, if_neg hr, applyBallot]
    rw [foldlM_update n _ keys g hn ?memb]
    case memb =>
      intro q hqmem
      apply hv
      apply List.take_subset n
      have hg := List.mem_enum_iff_getElem?.mp hqmem
      exact List.getElem?_mem hg
    rfl

theorem calcScores_eq (d : DemocraticDecision) (hvalid : ValidVotes d) :
    calcScores d = Except.ok (scoreTable d) := by
  have hnodup : (pyDedup (d.voting_options.map VotingOption.option_id)).Nodup :=
    pyDedup_nodup _
  have key : ∀ (votes : List AgentVote) (g : String → Nat),
      (∀ v ∈ votes, ∀ oid ∈ v.ranked_options,
        oid ∈ d.voting_options.map VotingOption.option_id) →
      votes.foldlM (fun sc v => scoreOneVote d.voting_options.length v sc)
          ((pyDedup (d.voting_options.map VotingOption.option_id)).map (fun x => (x, g x)))
        = Except.ok ((pyDedup (d.voting_options.map VotingOption.option_id)).map (fun x =>
            (x, g x + (votes.map
              (fun v => voteContribution d.voting_options.length v x)).sum))) := by
    intro votes
    induction votes with
    | nil =>
      intro g _
      simp only [List.foldlM_nil, List.map_nil, List.sum_nil, Nat.add_zero]
      rfl
    | cons v t ih =>
      intro g hmem
      rw [List.foldlM_cons]
      rw [scoreOneVote_map _ v _ g hnodup (fun oid hoid =>
        (pyDedup_mem oid _).mpr (hmem v (List.mem_cons_self _ _) oid hoid))]
      have hbind : ∀ (x : List (String × Nat))
          (F : List (String × Nat) → Except Unit (List (String × Nat))),
          (Except.ok x >>= F) = F x := fun _ _ => rfl
      rw [hbind]
      rw [ih (fun x => g x + voteContribution d.voting_options.length v x)
        (fun w hw => hmem w (List.mem_cons_of_mem _ hw))]
      congr 1
      apply List.map_congr_left
      intro x _
      simp [Nat.add_assoc]
  rw [calcScores, initScores]
  have h0 : (pyDedup (d.voting_options.map VotingOption.option_id)).map
      (fun k => ((k : String), (0 : Nat))) =
      (pyDedup (d.voting_options.map VotingOption.option_id)).map (fun x => (x, (fun _ => 0) x)) :=
    rfl
  rw [h0, key d.votes (fun _ => 0) hvalid]
  rw [scoreTable]
  congr 1
  apply List.map_congr_left
  intro x _
  simp [bordaScore]

theorem findOpt_of_mem : ∀ (opts : List VotingOption) {oid : String},
    oid ∈ opts.map VotingOption.option_id → ∃ o, findOpt opts oid = some o := by
  intro opts
  induction opts with
  | nil => intro oid h; simp at h
  | cons o t ih =>
    intro oid h
    by_cases ho : o.option_id = oid
    · exact ⟨o, by simp [findOpt, ho]⟩
    · rcases List.mem_cons.mp h with h2 | h2
      · exact absurd h2.symm ho
      · obtain ⟨o2, ho2⟩ := ih h2
        exact ⟨o2, by simp [findOpt, ho, ho2]⟩

theorem mapM_ok {α β : Type} (F : α → Except Unit β) (G : α → β) :
    ∀ l : List α, (∀ x ∈ l, F x = Except.ok (G x)) →
      l.mapM F = Except.ok (l.map G) := by
  intro l
  induction l with
  | nil => intro _; rfl
  | cons a t ih =>
    intro h
    rw [List.mapM_cons, h a (List.mem_cons_self _ _),
      ih (fun x hx => h x (List.mem_cons_of_mem _ hx))]
    rfl

theorem calcWinner_spec (d : DemocraticDecision) (hv : d.votes ≠ [])
    (ho : d.voting_options ≠ []) (hvalid : ValidVotes d) :
    calculate_ranked_choice_winner d = Except.ok (tallied d, some (winnerId d)) := by
  rw [calculate_ranked_choice_winner]
  rw [if_neg (by simp [hv, ho])]
  rw [calcScores_eq d hvalid]
  obtain ⟨a, t, hids⟩ : ∃ a t, d.voting_options.map VotingOption.option_id = a :: t := by
    cases hl : d.voting_options.map VotingOption.option_id with
    | nil =>
      rw [List.map_eq_nil_iff] at hl
      exact absurd hl ho
    | cons a t => exact ⟨a, t, rfl⟩
  obtain ⟨w, hw⟩ : ∃ w, firstMaxBy (bordaScore d)
      (d.voting_options.map VotingOption.option_id) = some w := by
    rw [hids]
    exact ⟨_, rfl⟩
  have hwid : winnerId d = w := by rw [winnerId, hw]; rfl
  have hmax : pyMaxSnd (scoreTable d) = some (w, bordaScore d w) := by
    rw [scoreTable, pyMaxSnd_map, firstMaxBy_pyDedup, hw]
    rfl
  obtain ⟨o, ho2⟩ := findOpt_of_mem d.voting_options (firstMaxBy_mem hw)
  have hlines : (sortScoresDesc (scoreTable d)).mapM (scoreLine d.voting_options) =
      Except.ok ((sortScoresDesc (scoreTable d)).map (lineOf d.voting_options)) := by
    apply mapM_ok
    intro p hp
    have hp2 : p ∈ scoreTable d := by
      rw [sortScoresDesc] at hp
      exact (List.perm_insertionSort (fun a b => b.2 ≤ a.2) (scoreTable d)).mem_iff.mp hp
    have hpid : p.1 ∈ d.voting_options.map VotingOption.option_id := by
      rw [scoreTable] at hp2
      obtain ⟨k, hk, hkp⟩ := List.mem_map.mp hp2
      rw [← hkp]
      exact (pyDedup_mem k _).mp hk
    obtain ⟨po, hpo⟩ := findOpt_of_mem d.voting_options hpid
    rw [scoreLine, lineOf, hpo]
  simp only [hmax, ho2, hlines]
  simp only [tallied, finalTextOf, hwid, ho2]

/-! ### Frame lemma of the tally and preservation of the engine invariant -/

theorem calcWinner_frame {d d' : DemocraticDecision} {w : Option String}
    (h : calculate_ranked_choice_winner d = Except.ok (d', w)) :
    d'.votes = d.votes ∧ d'.participating_agents = d.participating_agents ∧
      d'.decision_id = d.decision_id := by
  rw [calculate_ranked_choice_winner] at h
  split at h
  · have hp := Except.ok.inj h
    simp only [Prod.mk.injEq] at hp
    obtain ⟨h1, -⟩ := hp
    refine ⟨?_, ?_, ?_⟩ <;> rw [← h1]
  · split at h
    · exact absurd h (by simp)
    · split at h
      · have hp := Except.ok.inj h
        simp only [Prod.mk.injEq] at hp
        obtain ⟨h1, -⟩ := hp
        refine ⟨?_, ?_, ?_⟩ <;> rw [← h1]
      · split at h
        · exact absurd h (by simp)
        · split at h
          · exact absurd h (by simp)
          · have hp := Except.ok.inj h
            simp only [Prod.mk.injEq] at hp
            obtain ⟨h1, -⟩ := hp
            refine ⟨?_, ?_, ?_⟩ <;> rw [← h1]

theorem goodDecision_of_eq {d d' : DemocraticDecision} (hv : d'.votes = d.votes)
    (hp : d'.participating_agents = d.participating_agents)
    (h : GoodDecision d) : GoodDecision d' := by
  rw [GoodDecision, hv, hp]
  exact h

theorem goodState_setA (s : EngineState) (h : GoodState s) (id : String)
    (d : DemocraticDecision) (hd : GoodDecision d) :
    GoodState ⟨setA s.active_decisions id d, s.completed_decisions⟩ := by
  obtain ⟨hkeys, hact, hcomp⟩ := h
  refine ⟨?_, ?_, hcomp⟩
  · by_cases hid : id ∈ s.active_decisions.map Prod.fst
    · rw [keys_setA_mem hid]
      exact hkeys
    · rw [keys_setA_not_mem hid]
      simp [List.nodup_append, hkeys, hid]
  · intro p hp
    rcases mem_setA hp with h2 | h2
    · rw [h2]
      exact hd
    · exact hact p h2

theorem goodState_init : GoodState initEngine := by
  refine ⟨?_, ?_, ?_⟩ <;> simp [initEngine]

theorem goodState_step (s : EngineState) (op : EngineOp) (h : GoodState s) :
    GoodState (stepOp s op) := by
  obtain ⟨hkeys, hact, hcomp⟩ := h
  cases op with
  | trigger now ct r c ags =>
    apply goodState_setA s ⟨hkeys, hact, hcomp⟩
    exact ⟨by simp, by simp⟩
  | advance id ph =>
    simp only [stepOp, advance_phase]
    cases hl : lookupA s.active_decisions id with
    | none => simp only [hl]; exact ⟨hkeys, hact, hcomp⟩
    | some d =>
      simp only [hl]
      apply goodState_setA s ⟨hkeys, hact, hcomp⟩
      exact goodDecision_of_eq rfl rfl (hact (id, d) (lookupA_mem hl))
  | propose now id agent prop reas =>
    simp only [stepOp, add_agent_proposal]
    cases hl : lookupA s.active_decisions id with
    | none => simp only [hl]; exact ⟨hkeys, hact, hcomp⟩
    | some d =>
      have hd : GoodDecision d := hact (id, d) (lookupA_mem hl)
      simp only [hl]
      split
      · exact ⟨hkeys, hact, hcomp⟩
      split
      · exact ⟨hkeys, hact, hcomp⟩
      split
      · exact ⟨hkeys, hact, hcomp⟩
      exact goodState_setA s ⟨hkeys, hact, hcomp⟩ id _ (goodDecision_of_eq rfl rfl hd)
  | synth id ins =>
    simp only [stepOp, synthesize_options]
    cases hl : lookupA s.active_decisions id with
    | none => simp only [hl]; exact ⟨hkeys, hact, hcomp⟩
    | some d =>
      have hd : GoodDecision d := hact (id, d) (lookupA_mem hl)
      simp only [hl]
      split
      · exact ⟨hkeys, hact, hcomp⟩
      exact goodState_setA s ⟨hkeys, hact, hcomp⟩ id _ (goodDecision_of_eq rfl rfl hd)
  | vote now id agent rk r =>
    simp only [stepOp, submit_agent_vote]
    cases hl : lookupA s.active_decisions id with
    | none => simp only [hl]; exact ⟨hkeys, hact, hcomp⟩
    | some d =>
      have hd : GoodDecision d := hact (id, d) (lookupA_mem hl)
      simp only [hl]
      split
      · exact ⟨hkeys, hact, hcomp⟩
      split
      · exact ⟨hkeys, hact, hcomp⟩
      case isFalse h1 h2 =>
      split
      case isTrue => exact ⟨hkeys, hact, hcomp⟩
      case isFalse h3 =>
      split
      case isTrue => exact ⟨hkeys, hact, hcomp⟩
      case isFalse h4 =>
      have hd2 : GoodDecision
          { d with votes := d.votes ++ [⟨agent, rk, r, now⟩] } := by
        constructor
        · simp only [List.map_append, List.map_cons, List.map_nil]
          rw [List.nodup_append]
          refine ⟨hd.1, by simp, ?_⟩
          intro x hx
          simp only [List.mem_singleton]
          intro hxa
          subst hxa
          exact h3 hx
        · intro v hv
          rcases List.mem_append.mp hv with h5 | h5
          · exact hd.2 v h5
          · simp only [List.mem_singleton] at h5
            subst h5
            simpa using not_not.mp h2
      split
      · split
        · exact goodState_setA s ⟨hkeys, hact, hcomp⟩ id _ hd2
        case h_2 d3w heq =>
          obtain ⟨hv3, hp3, _⟩ := calcWinner_frame heq
          exact goodState_setA s ⟨hkeys, hact, hcomp⟩ id _
            (goodDecision_of_eq hv3 hp3 hd2)
      · exact goodState_setA s ⟨hkeys, hact, hcomp⟩ id _ hd2
  | finalize now id txt =>
    simp only [stepOp, finalize_decision]
    cases hl : lookupA s.active_decisions id with
    | none => simp only [hl]; exact ⟨hkeys, hact, hcomp⟩
    | some d =>
      have hd : GoodDecision d := hact (id, d) (lookupA_mem hl)
      simp only [hl]
      refine ⟨?_, ?_, ?_⟩
      · exact (keys_delA_sublist _ _).nodup hkeys
      · intro p hp
        exact hact p (mem_delA hp)
      · intro d2 hd2
        rcases List.mem_append.mp hd2 with h5 | h5
        · exact hcomp d2 h5
        · simp only [List.mem_singleton] at h5
          subst h5
          cases txt with
          | none => exact goodDecision_of_eq rfl rfl hd
          | some t =>
            by_cases ht : t ≠ ""
            · simp only [if_pos ht]
              exact goodDecision_of_eq rfl rfl hd
            · simp only [if_neg ht]
              exact goodDecision_of_eq rfl rfl hd

theorem runOps_good : ∀ (ops : List EngineOp) (s : EngineState),
    GoodState s → GoodState (runOps s ops) := by
  intro ops
  induction ops with
  | nil => intro s h; exact h
  | cons op t ih =>
    intro s h
    exact ih (stepOp s op) (goodState_step s op h)

theorem reachable_good {s : EngineState} (h : Reachable s) : GoodState s := by
  obtain ⟨ops, hops⟩ := h
  rw [← hops]
  exact runOps_good ops initEngine goodState_init

/-! ### After the voting threshold, every participant has voted -/

theorem voters_complete {d : DemocraticDecision} (hd : GoodDecision d)
    (hcnt : d.participating_agents.length ≤ d.votes.length)
    {agent : String} (hagent : agent ∈ d.participating_agents) :
    agent ∈ d.votes.map AgentVote.agent_name := by
  have hlen : (d.votes.map AgentVote.agent_name).length = d.votes.length :=
    List.length_map _ _
  have hsub : ∀ x ∈ d.votes.map AgentVote.agent_name, x ∈ d.participating_agents := by
    intro x hx
    obtain ⟨v, hv, hvx⟩ := List.mem_map.mp hx
    exact hvx ▸ hd.2 v hv
  have h1 : (d.votes.map AgentVote.agent_name).toFinset.card =
      (d.votes.map AgentVote.agent_name).length :=
    List.toFinset_card_of_nodup hd.1
  have h2 : (d.votes.map AgentVote.agent_name).toFinset ⊆
      d.participating_agents.toFinset := by
    intro x hx
    exact List.mem_toFinset.mpr (hsub x (List.mem_toFinset.mp hx))
  have h3 : d.participating_agents.toFinset.card ≤
      (d.votes.map AgentVote.agent_name).toFinset.card := by
    calc d.participating_agents.toFinset.card
        ≤ d.participating_agents.length := List.toFinset_card_le _
      _ ≤ d.votes.length := hcnt
      _ = (d.votes.map AgentVote.agent_name).length := hlen.symm
      _ = (d.votes.map AgentVote.agent_name).toFinset.card := h1.symm
  have h4 : (d.votes.map AgentVote.agent_name).toFinset =
      d.participating_agents.toFinset :=
    Finset.eq_of_subset_of_card_le h2 h3
  have h5 : agent ∈ (d.votes.map AgentVote.agent_name).toFinset := by
    rw [h4]
    exact List.mem_toFinset.mpr hagent
  exact List.mem_toFinset.mp h5

theorem submit_after_threshold {s : EngineState} (hre : Reachable s) {id : String}
    {d : DemocraticDecision} (hl : lookupA s.active_decisions id = some d)
    (hcnt : d.participating_agents.length ≤ d.votes.length)
    (now : Nat) (agent : String) (rk : List String) (r : String) :
    submit_agent_vote now id agent rk r s = (Except.ok false, s) := by
  have hd : GoodDecision d := (reachable_good hre).2.1 (id, d) (lookupA_mem hl)
  rw [submit_agent_vote]
  simp only [hl]
  by_cases h1 : d.current_phase ≠ VotingPhase.ranked_voting
  · simp [h1]
  · by_cases h2 : agent ∈ d.participating_agents
    · have h3 : agent ∈ d.votes.map AgentVote.agent_name :=
        voters_complete hd hcnt h2
      simp [h1, h2, h3]
    · simp [h1, h2]

/-! ### Dormancy: a finalized id stays resolvable and immutable -/

/-- The decision id is absent from active storage and resolves to `d` in
completed storage. -/
def Dormant (s : EngineState) (id : String) (d : DemocraticDecision) : Prop :=
  lookupA s.active_decisions id = none ∧ findById s.completed_decisions id = some d

theorem mutations_fail_of_not_active {s : EngineState} {id : String}
    (h : lookupA s.active_decisions id = none) :
    (∀ now agent prop reas, add_agent_proposal now id agent prop reas s = (false, s)) ∧
    (∀ now agent rk r, submit_agent_vote now id agent rk r s = (Except.ok false, s)) ∧
    (∀ ins, synthesize_options id ins s = (false, s)) ∧
    (∀ ph, advance_phase id ph s = (false, s)) ∧
    (∀ now txt, finalize_decision now id txt s = (false, s)) := by
  refine ⟨?_, ?_, ?_, ?_, ?_⟩
  · intro now agent prop reas
    rw [add_agent_proposal]
    simp [h]
  · intro now agent rk r
    rw [submit_agent_vote]
    simp [h]
  · intro ins
    rw [synthesize_options]
    simp [h]
  · intro ph
    rw [advance_phase]
    simp [h]
  · intro now txt
    rw [finalize_decision]
    simp [h]

theorem dormant_step {s : EngineState} {id : String} {d : DemocraticDecision}
    (hdor : Dormant s id d) (op : EngineOp) (hop : ¬ TriggersId op id) :
    Dormant (stepOp s op) id d := by
  obtain ⟨hactive, hcomp⟩ := hdor
  cases op with
  | trigger now ct r c ags =>
    have hne : "decision_" ++ toString now ++ "_" ++ ct.value ≠ id := hop
    have hne' : id ≠ "decision_" ++ toString now ++ "_" ++ ct.value :=
      fun hh => hne hh.symm
    simp only [stepOp, trigger_democratic_decision]
    refine ⟨?_, hcomp⟩
    rw [lookupA_setA_ne _ _ hne']
    exact hactive
  | advance id2 ph =>
    by_cases hid : id2 = id
    · subst hid
      have hr := mutations_fail_of_not_active hactive
      simp only [stepOp, hr.2.2.2.1]
      exact ⟨hactive, hcomp⟩
    · have hid' : id ≠ id2 := fun hh => hid hh.symm
      simp only [stepOp, advance_phase]
      cases hl : lookupA s.active_decisions id2 with
      | none => simp only [hl]; exact ⟨hactive, hcomp⟩
      | some d2 =>
        simp only [hl]
        refine ⟨?_, hcomp⟩
        rw [lookupA_setA_ne _ _ hid']
        exact hactive
  | propose now id2 agent prop reas =>
    by_cases hid : id2 = id
    · subst hid
      have hr := mutations_fail_of_not_active hactive
      simp only [stepOp, hr.1]
      exact ⟨hactive, hcomp⟩
    · have hid' : id ≠ id2 := fun hh => hid hh.symm
      simp only [stepOp, add_agent_proposal]
      cases hl : lookupA s.active_decisions id2 with
      | none => simp only [hl]; exact ⟨hactive, hcomp⟩
      | some d2 =>
        simp only [hl]
        split
        · exact ⟨hactive, hcomp⟩
        split
        · exact ⟨hactive, hcomp⟩
        split
        · exact ⟨hactive, hcomp⟩
        refine ⟨?_, hcomp⟩
        rw [lookupA_setA_ne _ _ hid']
        exact hactive
  | synth id2 ins =>
    by_cases hid : id2 = id
    · subst hid
      have hr := mutations_fail_of_not_active hactive
      simp only [stepOp, hr.2.2.1]
      exact ⟨hactive, hcomp⟩
    · have hid' : id ≠ id2 := fun hh => hid hh.symm
      simp only [stepOp, synthesize_options]
      cases hl : lookupA s.active_decisions id2 with
      | none => simp only [hl]; exact ⟨hactive, hcomp⟩
      | some d2 =>
        simp only [hl]
        split
        · exact ⟨hactive, hcomp⟩
        refine ⟨?_, hcomp⟩
        rw [lookupA_setA_ne _ _ hid']
        exact hactive
  | vote now id2 agent rk r =>
    by_cases hid : id2 = id
    · subst hid
      have hr := mutations_fail_of_not_active hactive
      simp only [stepOp, hr.2.1]
      exact ⟨hactive, hcomp⟩
    · have hid' : id ≠ id2 := fun hh => hid hh.symm
      simp only [stepOp, submit_agent_vote]
      cases hl : lookupA s.active_decisions id2 with
      | none => simp only [hl]; exact ⟨hactive, hcomp⟩
      | some d2 =>
        simp only [hl]
        split
        · exact ⟨hactive, hcomp⟩
        split
        · exact ⟨hactive, hcomp⟩
        split
        · exact ⟨hactive, hcomp⟩
        split
        · exact ⟨hactive, hcomp⟩
        split
        · split
          · refine ⟨?_, hcomp⟩
            rw [lookupA_setA_ne _ _ hid']
            exact hactive
          · refine ⟨?_, hcomp⟩
            rw [lookupA_setA_ne _ _ hid']
            exact hactive
        · refine ⟨?_, hcomp⟩
          rw [lookupA_setA_ne _ _ hid']
          exact hactive
  | finalize now id2 txt =>
    by_cases hid : id2 = id
    · subst hid
      have hr := mutations_fail_of_not_active hactive
      simp only [stepOp, hr.2.2.2.2]
      exact ⟨hactive, hcomp⟩
    · simp only [stepOp, finalize_decision]
      cases hl : lookupA s.active_decisions id2 with
      | none => simp only [hl]; exact ⟨hactive, hcomp⟩
      | some d2 =>
        simp only [hl]
        refine ⟨?_, ?_⟩
        · rw [lookupA_delA_ne _ hid]
          exact hactive
        · exact findById_append_some hcomp _

theorem dormant_runOps {s : EngineState} {id : String} {d : DemocraticDecision}
    (hdor : Dormant s id d) : ∀ ops : List EngineOp,
    (∀ op ∈ ops, ¬ TriggersId op id) → Dormant (runOps s ops) id d := by
  intro ops
  induction ops generalizing s with
  | nil => intro _; exact hdor
  | cons op t ih =>
    intro hops
    exact ih (dormant_step hdor op (hops op (List.mem_cons_self _ _)))
      (fun o ho => hops o (List.mem_cons_of_mem _ ho))

/-! ### Stability of the cluster sort (C9) -/

theorem filter_orderedInsert (m : Nat) (a : ProposalCluster) :
    ∀ l : List ProposalCluster,
    (List.orderedInsert clusterGeCount a l).filter
        (fun c => decide (c.contributing_agents.length = m)) =
      if a.contributing_agents.length = m then
        a :: l.filter (fun c => decide (c.contributing_agents.length = m))
      else l.filter (fun c => decide (c.contributing_agents.length = m)) := by
  intro l
  induction l with
  | nil =>
    by_cases ha : a.contributing_agents.length = m
    · simp [List.orderedInsert, ha]
    · simp [List.orderedInsert, ha]
  | cons b t ih =>
    rw [List.orderedInsert]
    by_cases hr : clusterGeCount a b
    · rw [if_pos hr]
      by_cases ha : a.contributing_agents.length = m
      · rw [if_pos ha]
        rw [List.filter_cons_of_pos (by simp [ha])]
      · rw [if_neg ha]
        rw [List.filter_cons_of_neg (by simp [ha])]
    · rw [if_neg hr]
      have hab : a.contributing_agents.length < b.contributing_agents.length :=
        Nat.lt_of_not_le hr
      by_cases ha : a.contributing_agents.length = m
      · rw [if_pos ha]
        have hbm : ¬ b.contributing_agents.length = m := by
          intro hbm
          rw [hbm, ha] at hab
          exact Nat.lt_irrefl m hab
        rw [List.filter_cons_of_neg (by simp [hbm]),
          List.filter_cons_of_neg (by simp [hbm]), ih, if_pos ha]
      · rw [if_neg ha]
        by_cases hb : b.contributing_agents.length = m
        · rw [List.filter_cons_of_pos (by simp [hb]),
            List.filter_cons_of_pos (by simp [hb]), ih, if_neg ha]
        · rw [List.filter_cons_of_neg (by simp [hb]),
            List.filter_cons_of_neg (by simp [hb]), ih, if_neg ha]

theorem filter_sortClusters (m : Nat) : ∀ cs : List ProposalCluster,
    (sortClusters cs).filter (fun c => decide (c.contributing_agents.length = m)) =
      cs.filter (fun c => decide (c.contributing_agents.length = m)) := by
  intro cs
  induction cs with
  | nil => rfl
  | cons a t ih =>
    rw [sortClusters, List.insertionSort]
    rw [filter_orderedInsert]
    rw [sortClusters] at ih
    by_cases ha : a.contributing_agents.length = m
    · rw [if_pos ha, ih, List.filter_cons_of_pos (by simp [ha])]
    · rw [if_neg ha, ih, List.filter_cons_of_neg (by simp [ha])]

theorem sortClusters_perm (cs : List ProposalCluster) :
    List.Perm (sortClusters cs) cs :=
  List.perm_insertionSort clusterGeCount cs

theorem sortClusters_sorted (cs : List ProposalCluster) :
    List.Sorted clusterGeCount (sortClusters cs) :=
  List.sorted_insertionSort clusterGeCount cs

theorem gen_title_ok (c : ProposalCluster) (h : c.contributing_agents ≠ []) :
    ∃ t, gen_option_title c = Except.ok t := by
  rw [gen_option_title]
  split
  · exact ⟨_, rfl⟩
  · cases hag : c.contributing_agents with
    | nil => exact absurd hag h
    | cons a rest =>
      exact ⟨_, rfl⟩

theorem gen_desc_ok (c : ProposalCluster) (h : c.contributing_agents ≠ []) :
    ∃ t, gen_option_description c = Except.ok t := by
  rw [gen_option_description]
  split
  · exact ⟨_, rfl⟩
  · cases hag : c.contributing_agents with
    | nil => exact absurd hag h
    | cons a rest =>
      exact ⟨_, rfl⟩

theorem mkGeneratedOption_ok (c : ProposalCluster) (h : c.contributing_agents ≠ []) :
    mkGeneratedOption c = Except.ok (totalGen c) := by
  obtain ⟨t, ht⟩ := gen_title_ok c h
  obtain ⟨dd, hd⟩ := gen_desc_ok c h
  simp only [mkGeneratedOption, totalGen, ht, hd, Except.toOption, Option.getD]

theorem generate_ok (cs : List ProposalCluster) (k : Nat)
    (h : ∀ c ∈ cs, c.contributing_agents ≠ []) :
    generate_voting_options cs k =
      Except.ok (((sortClusters cs).take k).map totalGen) := by
  rw [generate_voting_options]
  apply mapM_ok
  intro c hc
  apply mkGeneratedOption_ok
  apply h
  have h1 : c ∈ sortClusters cs := List.take_subset _ _ hc
  rw [sortClusters] at h1
  exact (List.perm_insertionSort clusterGeCount cs).mem_iff.mp h1

/-! ### The clustering dict-fold equals grouping by theme (C8) -/

theorem lookupA_unique {α : Type} : ∀ {l : List (String × α)},
    (l.map Prod.fst).Nodup → ∀ {k : String} {c : α}, lookupA l k = some c →
    ∀ q ∈ l, q.1 = k → q = (k, c) := by
  intro l
  induction l with
  | nil =>
    intro _ k c hl
    simp [lookupA] at hl
  | cons p t ih =>
    intro hn k c hl q hq hqk
    simp only [List.map_cons, List.nodup_cons] at hn
    rcases List.mem_cons.mp hq with hq1 | hq1
    · subst hq1
      rw [lookupA, if_pos hqk] at hl
      have hc : q.2 = c := Option.some.inj hl
      rw [← hqk, ← hc]
    · by_cases hp : p.1 = k
      · exfalso
        apply hn.1
        have hmem : k ∈ t.map Prod.fst := hqk ▸ List.mem_map_of_mem Prod.fst hq1
        exact hp ▸ hmem
      · rw [lookupA, if_neg hp] at hl
        exact ih hn.2 hl q hq1 hqk

theorem clusterFold_eq : ∀ (ps : List AgentProposal) (acc : List (String × ProposalCluster)),
    (acc.map Prod.fst).Nodup →
    ps.foldl clusterStepA acc =
      acc.map (fun q =>
          (q.1, (ps.filter (fun p => decide (primaryTheme p = q.1))).foldl addToCluster q.2))
        ++ (pyDedup ((ps.map primaryTheme).filter
              (fun t => decide (t ∉ acc.map Prod.fst)))).map
            (fun t => (t, (ps.filter (fun p => decide (primaryTheme p = t))).foldl
              addToCluster (emptyCluster t))) := by
  intro ps
  induction ps with
  | nil =>
    intro acc hn
    simp [pyDedup_nil]
  | cons p t ih =>
    intro acc hn
    rw [List.foldl_cons, clusterStepA]
    cases hl : lookupA acc (primaryTheme p) with
    | some c =>
      simp only [hl]
      rw [setA_eq_map_of_nodup hn hl]
      have hkeys' : ((acc.map (fun q =>
          if q.1 = primaryTheme p then (primaryTheme p, addToCluster c p) else q)).map
            Prod.fst) = acc.map Prod.fst := by
        rw [List.map_map]
        apply List.map_congr_left
        intro q _
        by_cases hq : q.1 = primaryTheme p
        · simp [Function.comp, hq]
        · simp [Function.comp, hq]
      rw [ih _ (by rw [hkeys']; exact hn)]
      rw [hkeys']
      congr 1
      · rw [List.map_map]
        apply List.map_congr_left
        intro q hq
        by_cases hqk : q.1 = primaryTheme p
        · have hqc : q = (primaryTheme p, c) := lookupA_unique hn hl q hq hqk
          have hpq : primaryTheme p = q.1 := hqk.symm
          rw [List.filter_cons_of_pos (by simp [hpq])]
          rw [hqc]
          simp [Function.comp, List.foldl_cons]
        · have hpq : ¬ primaryTheme p = q.1 := fun hh => hqk hh.symm
          rw [List.filter_cons_of_neg (by simp [hpq])]
          simp [Function.comp, hqk]
      · have hkmem : primaryTheme p ∈ acc.map Prod.fst := by
          have h1 := lookupA_mem hl
          exact List.mem_map_of_mem Prod.fst h1
        rw [List.map_cons, List.filter_cons_of_neg (by simp [hkmem])]
        apply List.map_congr_left
        intro t' ht'
        have ht'mem : t' ∉ acc.map Prod.fst := by
          have h1 := (pyDedup_mem t' _).mp ht'
          have h2 := List.mem_filter.mp h1
          simpa using h2.2
        have ht'ne : ¬ primaryTheme p = t' := fun hh => ht'mem (hh ▸ hkmem)
        rw [List.filter_cons_of_neg (by simp [ht'ne])]
    | none =>
      simp only [hl]
      have hknmem : primaryTheme p ∉ acc.map Prod.fst := (lookupA_none_iff _ _).mp hl
      have hkeys2 : (((acc ++ [(primaryTheme p,
          addToCluster (emptyCluster (primaryTheme p)) p)]).map Prod.fst)).Nodup := by
        rw [List.map_append]
        rw [List.nodup_append]
        refine ⟨hn, by simp, ?_⟩
        intro x hx
        simp only [List.map_cons, List.map_nil, List.mem_singleton]
        intro hxk
        subst hxk
        exact hknmem hx
      rw [ih _ hkeys2]
      rw [List.map_append]
      have hkeysapp : (acc ++ [(primaryTheme p,
          addToCluster (emptyCluster (primaryTheme p)) p)]).map Prod.fst =
          acc.map Prod.fst ++ [primaryTheme p] := by
        rw [List.map_append]
        rfl
      -- rewrite the three pieces
      have haccpart : acc.map (fun q =>
          (q.1, (t.filter (fun p2 => decide (primaryTheme p2 = q.1))).foldl
            addToCluster q.2)) =
          acc.map (fun q =>
          (q.1, ((p :: t).filter (fun p2 => decide (primaryTheme p2 = q.1))).foldl
            addToCluster q.2)) := by
        apply List.map_congr_left
        intro q hq
        have hq1 : q.1 ∈ acc.map Prod.fst := List.mem_map_of_mem Prod.fst hq
        have hne : ¬ primaryTheme p = q.1 := fun hh => hknmem (hh ▸ hq1)
        rw [List.filter_cons_of_neg (by simp [hne])]
      have hnewhead : ((p :: t).map primaryTheme).filter
          (fun t2 => decide (t2 ∉ acc.map Prod.fst)) =
          primaryTheme p :: ((t.map primaryTheme).filter
            (fun t2 => decide (t2 ∉ acc.map Prod.fst))) := by
        rw [List.map_cons, List.filter_cons_of_pos (by simp [hknmem])]
      rw [hnewhead, pyDedup_cons]
      rw [← haccpart]
      rw [List.append_assoc]
      congr 1
      have hfilterfilter : ((t.map primaryTheme).filter
            (fun t2 => decide (t2 ∉ acc.map Prod.fst))).filter
            (fun x => x ≠ primaryTheme p) =
          (t.map primaryTheme).filter
            (fun t2 => decide (t2 ∉ (acc ++ [(primaryTheme p,
              addToCluster (emptyCluster (primaryTheme p)) p)]).map Prod.fst)) := by
        rw [List.filter_filter]
        apply List.filter_congr
        intro x _
        rw [hkeysapp]
        simp only [List.mem_append, List.mem_singleton, decide_not]
        by_cases hx1 : x ∈ acc.map Prod.fst
        · simp [hx1]
        · by_cases hx2 : x = primaryTheme p
          · simp [hx1, hx2]
          · simp [hx1, hx2]
      rw [hfilterfilter]
      simp only [List.map_cons, List.map_nil, List.nil_append]
      rw [List.filter_cons_of_pos (by simp), List.foldl_cons, List.singleton_append]
      congr 1
      apply List.map_congr_left
      intro t' ht'
      have ht'mem := (pyDedup_mem t' _).mp ht'
      have h2 := List.mem_filter.mp ht'mem
      have ht'notk : ¬ primaryTheme p = t' := by
        have h3 : t' ∉ (acc ++ [(primaryTheme p,
            addToCluster (emptyCluster (primaryTheme p)) p)]).map Prod.fst := by
          simpa using h2.2
        rw [hkeysapp] at h3
        intro hh
        exact h3 (List.mem_append.mpr (Or.inr (by simp [hh])))
      rw [List.filter_cons_of_neg (by simp [ht'notk])]

theorem cluster_eq_group (ps : List AgentProposal) :
    cluster_similar_proposals ps = clustersByTheme ps := by
  rw [cluster_similar_proposals, clusterFold_eq ps [] (by simp)]
  rw [clustersByTheme]
  simp [List.map_map, Function.comp]

/-! ### Claim theorems -/

/-- Claim C1, counterexample: the claim quantifies over "any list of votes",
but with an empty vote list the tally returns `None` without assigning scores
or a winner (`winning_option_id` stays `""` although the claim's rule picks
`"o1"`), and with a ballot referencing a nonexistent option id the tally
raises KeyError instead of assigning scores. -/
theorem C1_counterexample :
    calculate_ranked_choice_winner noVotesDecision =
      Except.ok (noVotesDecision, none) ∧
    noVotesDecision.winning_option_id = "" ∧
    winnerId noVotesDecision = "o1" ∧
    calculate_ranked_choice_winner alienVoteDecision = Except.error () := by
  refine ⟨by decide, rfl, by decide, by decide⟩

/-- Claim C1 (amended): for every decision with a nonempty vote list whose
ballots reference only existing option ids (and hence nonempty options), the
tally assigns each option id the aggregate score `Σ over votes of (n - rank)`
over the 0-indexed positions `rank < n` at which the id appears (positions
beyond `n` truncated, unranked options scoring 0), and stores as winner the
first maximum encountered scanning the scores in voting-option creation
order; in particular the three cyclic ballots over 3 options all score 6 and
the first option wins the tie. -/
theorem C1_tally (d : DemocraticDecision) (hv : d.votes ≠ [])
    (ho : d.voting_options ≠ []) (hvalid : ValidVotes d) :
    calcScores d = Except.ok
      ((pyDedup (d.voting_options.map VotingOption.option_id)).map
        (fun k => (k, bordaScore d k))) ∧
    calculate_ranked_choice_winner d = Except.ok (tallied d, some (winnerId d)) ∧
    (tallied d).winning_option_id = winnerId d ∧
    calcScores cyclicDecision = Except.ok [("o1", 6), ("o2", 6), ("o3", 6)] ∧
    winnerId cyclicDecision = "o1" :=
  ⟨calcScores_eq d hvalid, calcWinner_spec d hv ho hvalid, rfl, by decide, by decide⟩

/-- Claim C1 witness: the amended theorem applied to the concrete cyclic
decision. -/
theorem C1_witness :
    calculate_ranked_choice_winner cyclicDecision =
      Except.ok (tallied cyclicDecision, some (winnerId cyclicDecision)) :=
  (C1_tally cyclicDecision (by decide) (by decide) (by decide)).2.1

/-- Claim C7: the code is a slip against the spec's "must not collide"
requirement.  Two trigger calls within the same epoch second with the same
conflict type return the identical decision id, and the second call
overwrites the first decision in active storage (only "second" survives). -/
theorem C7_id_collision :
    (trigger_democratic_decision 100 ConflictType.manual_trigger "first" "c" ["A"]
      initEngine).1 =
      (trigger_democratic_decision 100 ConflictType.manual_trigger "second" "c" ["A"]
        (trigger_democratic_decision 100 ConflictType.manual_trigger "first" "c" ["A"]
          initEngine).2).1 ∧
    ((trigger_democratic_decision 100 ConflictType.manual_trigger "second" "c" ["A"]
      (trigger_democratic_decision 100 ConflictType.manual_trigger "first" "c" ["A"]
        initEngine).2).2.active_decisions.map (fun p => p.2.trigger_reason)) =
      ["second"] := by
  refine ⟨by decide, by decide⟩

/-- Claim C8, counterexample: when the first proposal of a cluster has an
empty proposal text, `representative_proposal` stays empty, so the second
proposal overwrites `merged_reasoning` ("y") instead of appending
(" | B: y" after "x") as the claim requires. -/
theorem C8_counterexample :
    cluster_similar_proposals [emptyTextProposalA, emptyTextProposalB] =
      [⟨"general", "", ["A", "B"], "y", ""⟩] ∧
    "y" ≠ "x | B: y" := by
  refine ⟨by decide, by decide⟩

/-- Claim C8 (amended): clustering assigns each proposal exactly one theme by
testing the keyword groups in order (meta group, then overview group, then
technical group, else "general") on the lower-cased proposal+reasoning text,
and equals grouping by theme in order of first appearance, where each
cluster is folded from its proposals in arrival order by `addToCluster`: a
proposal arriving while `representative_proposal` is still empty installs its
proposal text as representative and overwrites `merged_reasoning` with its
reasoning; once the representative is a nonempty text, each later proposal
appends " | agent: reasoning". -/
theorem C8_clustering (ps : List AgentProposal) :
    cluster_similar_proposals ps =
      (pyDedup (ps.map primaryTheme)).map (fun t =>
        (ps.filter (fun p => primaryTheme p = t)).foldl addToCluster
          (emptyCluster t)) :=
  cluster_eq_group ps

/-- Claim C9, counterexample: on a cluster list containing a cluster with no
contributing agents, `generate_voting_options` raises IndexError
(`contributing_agents[0]`) instead of outputting the sorted, truncated
cluster list the claim describes. -/
theorem C9_counterexample :
    generate_voting_options [⟨"t", "desc", [], "mr", "rp"⟩] 1 = Except.error () ∧
    (sortClusters [⟨"t", "desc", [], "mr", "rp"⟩]).take 1 =
      [⟨"t", "desc", [], "mr", "rp"⟩] := by
  refine ⟨by decide, by decide⟩

/-- Claim C9 (amended): provided every cluster has at least one contributing
agent, `generate_voting_options` outputs exactly the clusters sorted stably
by number of contributing agents in descending order (a permutation, sorted
w.r.t. descending agent count, with every equal-count group kept in original
order), truncated to the first `max_options`, each rendered as its option
dict; the empty cluster list yields the empty output. -/
theorem C9_option_order (cs : List ProposalCluster) (k : Nat)
    (h : ∀ c ∈ cs, c.contributing_agents ≠ []) :
    generate_voting_options cs k =
      Except.ok (((sortClusters cs).take k).map totalGen) ∧
    List.Perm (sortClusters cs) cs ∧
    List.Sorted clusterGeCount (sortClusters cs) ∧
    (∀ m : Nat,
      (sortClusters cs).filter (fun c => decide (c.contributing_agents.length = m)) =
        cs.filter (fun c => decide (c.contributing_agents.length = m))) ∧
    generate_voting_options [] k = Except.ok [] :=
  ⟨generate_ok cs k h, sortClusters_perm cs, sortClusters_sorted cs,
    fun m => filter_sortClusters m cs, by
      rw [generate_voting_options]
      have hnil : sortClusters ([] : List ProposalCluster) = [] := rfl
      rw [hnil, List.take_nil]
      rfl⟩

/-- Claim C9 witness: the amended theorem applied to two concrete clusters
(the two-agent cluster is sorted first). -/
theorem C9_witness :
    generate_voting_options sampleClusters 4 =
      Except.ok (((sortClusters sampleClusters).take 4).map totalGen) :=
  (C9_option_order sampleClusters 4 (by decide)).1

/-- Claim C5: `add_agent_proposal` returns false exactly when the id is not
active, the phase is not IDEA_COLLECTION, the agent is not a participant, or
the agent already proposed; every false return leaves the engine state
unchanged; a successful call appends exactly one proposal record for the
agent. -/
theorem C5_proposal (s : EngineState) (now : Nat) (id agent prop reas : String) :
    ((add_agent_proposal now id agent prop reas s).1 = false ↔
      ∀ d, lookupA s.active_decisions id = some d →
        d.current_phase ≠ VotingPhase.idea_collection ∨
        agent ∉ d.participating_agents ∨
        agent ∈ d.proposals.map AgentProposal.agent_name) ∧
    ((add_agent_proposal now id agent prop reas s).1 = false →
      (add_agent_proposal now id agent prop reas s).2 = s) ∧
    (∀ d, lookupA s.active_decisions id = some d →
      d.current_phase = VotingPhase.idea_collection →
      agent ∈ d.participating_agents →
      agent ∉ d.proposals.map AgentProposal.agent_name →
      add_agent_proposal now id agent prop reas s = (true,
        ⟨setA s.active_decisions id
          { d with proposals := d.proposals ++ [⟨agent, prop, reas, now⟩] },
          s.completed_decisions⟩)) := by
  cases hl : lookupA s.active_decisions id with
  | none =>
    have hres : add_agent_proposal now id agent prop reas s = (false, s) := by
      rw [add_agent_proposal]
      simp [hl]
    refine ⟨?_, ?_, ?_⟩
    · rw [hres]
      simp only [true_iff]
      intro d2 hd2
      exact absurd hd2 (by simp)
    · intro _
      rw [hres]
    · intro d2 hd2
      exact absurd hd2 (by simp)
  | some d =>
    have hread : ∀ d2 : DemocraticDecision, some d = some d2 → d2 = d := by
      intro d2 hd2
      exact (Option.some.inj hd2).symm
    by_cases h1 : d.current_phase = VotingPhase.idea_collection
    · by_cases h2 : agent ∈ d.participating_agents
      · by_cases h3 : agent ∈ d.proposals.map AgentProposal.agent_name
        · have hres : add_agent_proposal now id agent prop reas s = (false, s) := by
            rw [add_agent_proposal]
            simp [hl, h1, h2, h3]
          refine ⟨?_, ?_, ?_⟩
          · rw [hres]
            simp only [true_iff]
            intro d2 hd2
            rw [hread d2 hd2]
            exact Or.inr (Or.inr h3)
          · intro _
            rw [hres]
          · intro d2 hd2 _ _ hno
            rw [hread d2 hd2] at hno
            exact absurd h3 hno
        · have hres : add_agent_proposal now id agent prop reas s = (true,
              ⟨setA s.active_decisions id
                { d with proposals := d.proposals ++ [⟨agent, prop, reas, now⟩] },
                s.completed_decisions⟩) := by
            rw [add_agent_proposal]
            simp [hl, h1, h2, h3]
          refine ⟨?_, ?_, ?_⟩
          · rw [hres]
            apply iff_of_false (by simp)
            intro hall
            rcases hall d rfl with h | h | h
            · exact h h1
            · exact h h2
            · exact h3 h
          · intro hfalse
            rw [hres] at hfalse
            cases hfalse
          · intro d2 hd2 _ _ _
            rw [hread d2 hd2]
            exact hres
      · have hres : add_agent_proposal now id agent prop reas s = (false, s) := by
          rw [add_agent_proposal]
          simp [hl, h1, h2]
        refine ⟨?_, ?_, ?_⟩
        · rw [hres]
          simp only [true_iff]
          intro d2 hd2
          rw [hread d2 hd2]
          exact Or.inr (Or.inl h2)
        · intro _
          rw [hres]
        · intro d2 hd2 _ hin _
          rw [hread d2 hd2] at hin
          exact absurd hin h2
    · have hres : add_agent_proposal now id agent prop reas s = (false, s) := by
        rw [add_agent_proposal]
        simp [hl, h1]
      refine ⟨?_, ?_, ?_⟩
      · rw [hres]
        simp only [true_iff]
        intro d2 hd2
        rw [hread d2 hd2]
        exact Or.inl h1
      · intro _
        rw [hres]
      · intro d2 hd2 hphase _ _
        rw [hread d2 hd2] at hphase
        exact absurd hphase h1

/-- Claim C5 witness: on a fresh decision in IDEA_COLLECTION phase the
success branch appends the proposal; a repeated submission by the same
agent then returns false and leaves the state unchanged. -/
theorem C5_witness :
    add_agent_proposal 2 "decision_5_manual_trigger" "A" "p" "q"
        (runOps initEngine [EngineOp.trigger 5 ConflictType.manual_trigger "r" "c" ["A"],
          EngineOp.advance "decision_5_manual_trigger" VotingPhase.idea_collection]) =
      (true, ⟨setA (runOps initEngine
          [EngineOp.trigger 5 ConflictType.manual_trigger "r" "c" ["A"],
           EngineOp.advance "decision_5_manual_trigger" VotingPhase.idea_collection]).active_decisions
        "decision_5_manual_trigger"
        { (lookupA (runOps initEngine
            [EngineOp.trigger 5 ConflictType.manual_trigger "r" "c" ["A"],
             EngineOp.advance "decision_5_manual_trigger" VotingPhase.idea_collection]).active_decisions
            "decision_5_manual_trigger").getD fallbackDecision with
          proposals := ((lookupA (runOps initEngine
            [EngineOp.trigger 5 ConflictType.manual_trigger "r" "c" ["A"],
             EngineOp.advance "decision_5_manual_trigger" VotingPhase.idea_collection]).active_decisions
            "decision_5_manual_trigger").getD fallbackDecision).proposals ++
            [⟨"A", "p", "q", 2⟩] },
        (runOps initEngine [EngineOp.trigger 5 ConflictType.manual_trigger "r" "c" ["A"],
          EngineOp.advance "decision_5_manual_trigger" VotingPhase.idea_collection]).completed_decisions⟩) :=
  (C5_proposal _ 2 "decision_5_manual_trigger" "A" "p" "q").2.2 _ (by decide)
    (by decide) (by decide) (by decide)

/-- Claim C4: `synthesize_options` returns false exactly when the id is not
active or the phase is not SYNTHESIS; a false return leaves the state
unchanged; success replaces `voting_options` wholesale with one option per
input in input order, numbered option_1, option_2, ...; a second successful
call leaves exactly the second input list's options, renumbered from
option_1. -/
theorem C4_synthesize (s : EngineState) (id : String) (inputs A B : List SynthInput) :
    ((synthesize_options id inputs s).1 = false ↔
      ∀ d, lookupA s.active_decisions id = some d →
        d.current_phase ≠ VotingPhase.synthesis) ∧
    ((synthesize_options id inputs s).1 = false →
      (synthesize_options id inputs s).2 = s) ∧
    (∀ d, lookupA s.active_decisions id = some d →
      d.current_phase = VotingPhase.synthesis →
      synthesize_options id inputs s = (true,
        ⟨setA s.active_decisions id
          { d with voting_options := inputs.enum.map (fun p => mkSynthOption p.1 p.2) },
          s.completed_decisions⟩)) ∧
    ((inputs.enum.map (fun p => mkSynthOption p.1 p.2)).map VotingOption.option_id =
      (List.range inputs.length).map (fun i => "option_" ++ toString (i + 1))) ∧
    (∀ d, lookupA s.active_decisions id = some d →
      d.current_phase = VotingPhase.synthesis →
      ((lookupA (synthesize_options id B (synthesize_options id A s).2).2.active_decisions
          id).map DemocraticDecision.voting_options) =
        some (B.enum.map (fun p => mkSynthOption p.1 p.2))) := by
  have hids : (inputs.enum.map (fun p => mkSynthOption p.1 p.2)).map
      VotingOption.option_id =
      (List.range inputs.length).map (fun i => "option_" ++ toString (i + 1)) := by
    rw [List.map_map]
    have hcomp : (VotingOption.option_id ∘ fun p : Nat × SynthInput =>
        mkSynthOption p.1 p.2) =
        (fun i => "option_" ++ toString (i + 1)) ∘ Prod.fst := rfl
    rw [hcomp, ← List.map_map, List.enum_map_fst]
  have hsucc : ∀ (ins : List SynthInput) (s2 : EngineState) (d : DemocraticDecision),
      lookupA s2.active_decisions id = some d →
      d.current_phase = VotingPhase.synthesis →
      synthesize_options id ins s2 = (true,
        ⟨setA s2.active_decisions id
          { d with voting_options := ins.enum.map (fun p => mkSynthOption p.1 p.2) },
          s2.completed_decisions⟩) := by
    intro ins s2 d hl hphase
    rw [synthesize_options]
    simp [hl, hphase]
  cases hl : lookupA s.active_decisions id with
  | none =>
    have hres : synthesize_options id inputs s = (false, s) := by
      rw [synthesize_options]
      simp [hl]
    refine ⟨?_, ?_, ?_, hids, ?_⟩
    · rw [hres]
      simp only [true_iff]
      intro d2 hd2
      exact absurd hd2 (by simp)
    · intro _
      rw [hres]
    · intro d2 hd2
      exact absurd hd2 (by simp)
    · intro d2 hd2
      exact absurd hd2 (by simp)
  | some d =>
    have hread : ∀ d2 : DemocraticDecision, some d = some d2 → d2 = d := by
      intro d2 hd2
      exact (Option.some.inj hd2).symm
    by_cases h1 : d.current_phase = VotingPhase.synthesis
    · refine ⟨?_, ?_, ?_, hids, ?_⟩
      · rw [hsucc inputs s d hl h1]
        apply iff_of_false (by simp)
        intro hall
        exact hall d rfl h1
      · intro hfalse
        rw [hsucc inputs s d hl h1] at hfalse
        cases hfalse
      · intro d2 hd2 _
        rw [hread d2 hd2]
        exact hsucc inputs s d hl h1
      · intro d2 _ _
        have hstep1 := hsucc A s d hl h1
        rw [hstep1]
        have hl2 : lookupA (setA s.active_decisions id
            { d with voting_options := A.enum.map (fun p => mkSynthOption p.1 p.2) })
            id = some { d with voting_options := A.enum.map (fun p => mkSynthOption p.1 p.2) } :=
          lookupA_setA_self _ _ _
        have hstep2 := hsucc B ⟨setA s.active_decisions id
            { d with voting_options := A.enum.map (fun p => mkSynthOption p.1 p.2) },
            s.completed_decisions⟩ _ hl2 h1
        rw [hstep2]
        simp [lookupA_setA_self]
    · have hres : synthesize_options id inputs s = (false, s) := by
        rw [synthesize_options]
        simp [hl, h1]
      refine ⟨?_, ?_, ?_, hids, ?_⟩
      · rw [hres]
        simp only [true_iff]
        intro d2 hd2
        rw [hread d2 hd2]
        exact h1
      · intro _
        rw [hres]
      · intro d2 hd2 hphase
        rw [hread d2 hd2] at hphase
        exact absurd hphase h1
      · intro d2 hd2 hphase
        rw [hread d2 hd2] at hphase
        exact absurd hphase h1

/-- Claim C4 witness: in a SYNTHESIS-phase decision, synthesizing input A and
then input B leaves exactly B's freshly numbered options. -/
theorem C4_witness :
    ((lookupA (synthesize_options "decision_1_manual_trigger"
        [⟨some "tB", none, none⟩]
        (synthesize_options "decision_1_manual_trigger"
          [⟨some "tA1", none, none⟩, ⟨some "tA2", none, none⟩]
          (runOps initEngine
            [EngineOp.trigger 1 ConflictType.manual_trigger "r" "c" ["A"],
             EngineOp.advance "decision_1_manual_trigger" VotingPhase.synthesis])).2).2.active_decisions
        "decision_1_manual_trigger").map DemocraticDecision.voting_options) =
      some (([⟨some "tB", none, none⟩] : List SynthInput).enum.map
        (fun p => mkSynthOption p.1 p.2)) :=
  (C4_synthesize _ "decision_1_manual_trigger" []
    [⟨some "tA1", none, none⟩, ⟨some "tA2", none, none⟩]
    [⟨some "tB", none, none⟩]).2.2.2.2
    ((lookupA (runOps initEngine
      [EngineOp.trigger 1 ConflictType.manual_trigger "r" "c" ["A"],
       EngineOp.advance "decision_1_manual_trigger" VotingPhase.synthesis]).active_decisions
      "decision_1_manual_trigger").getD fallbackDecision)
    (by decide) (by decide)

/-- Claim C2, counterexample: a reachable run (vote accepted, then
`advance_phase` back to SYNTHESIS and a second `synthesize_options` with
fewer options) leaves a stored ballot referencing "option_2" although the
decision's current voting options are exactly ["option_1"]. -/
theorem C2_counterexample :
    ((lookupA (runOps initEngine staleBallotOps).active_decisions
        "decision_1_manual_trigger").map (fun d =>
          (d.votes.map AgentVote.ranked_options,
            d.voting_options.map VotingOption.option_id))) =
      some ([["option_1", "option_2"]], ["option_1"]) ∧
    "option_2" ∉ (["option_1"] : List String) := by
  refine ⟨by decide, by decide⟩

/-- Claim C2 (amended): in every reachable engine state no two votes of the
same decision (active or completed) share an agent name; and every ballot is
validated against the then-current voting options: whenever `submit_agent_vote`
does not return false, every option id in the submitted ballot is among the
decision's current voting-option ids at that moment.  (Membership in the
current options can later be broken by a re-synthesis, as the counterexample
shows.) -/
theorem C2_invariants (s : EngineState) (hre : Reachable s) :
    (∀ p ∈ s.active_decisions, (p.2.votes.map AgentVote.agent_name).Nodup) ∧
    (∀ d ∈ s.completed_decisions, (d.votes.map AgentVote.agent_name).Nodup) ∧
    (∀ (now : Nat) (id agent : String) (ranked : List String) (r : String)
        (d : DemocraticDecision), lookupA s.active_decisions id = some d →
      (submit_agent_vote now id agent ranked r s).1 ≠ Except.ok false →
      ∀ oid ∈ ranked, oid ∈ d.voting_options.map VotingOption.option_id) := by
  have hg := reachable_good hre
  refine ⟨fun p hp => (hg.2.1 p hp).1, fun d hd => (hg.2.2 d hd).1, ?_⟩
  intro now id agent ranked r d hl hfst
  rw [submit_agent_vote] at hfst
  simp only [hl] at hfst
  by_cases h1 : d.current_phase ≠ VotingPhase.ranked_voting
  · rw [if_pos h1] at hfst
    exact absurd rfl hfst
  · rw [if_neg h1] at hfst
    by_cases h2 : agent ∉ d.participating_agents
    · rw [if_pos h2] at hfst
      exact absurd rfl hfst
    · rw [if_neg h2] at hfst
      by_cases h3 : agent ∈ d.votes.map AgentVote.agent_name
      · rw [if_pos h3] at hfst
        exact absurd rfl hfst
      · rw [if_neg h3] at hfst
        by_cases h4 : ∀ oid ∈ ranked, oid ∈ d.voting_options.map VotingOption.option_id
        · exact h4
        · rw [if_pos h4] at hfst
          exact absurd rfl hfst

/-- Claim C2 witness: the amended invariant applied to the concrete
post-vote state (one stored vote, distinct voter names). -/
theorem C2_witness :
    (postVoteDecision.votes.map AgentVote.agent_name).Nodup := by
  have h := (C2_invariants postVoteState ⟨postVoteOps, rfl⟩).1
  exact h ("decision_1_manual_trigger", postVoteDecision) (by decide)

/-- Claim C3, counterexample: with one participant, phase RANKED_VOTING and
no synthesized voting options, the participant's empty ballot is accepted and
makes the vote count (1) equal the participant count (1), so the auto-tally
is invoked — but it returns early on the empty option list and stores
neither `winning_option_id` nor `winning_option` nor `final_decision`. -/
theorem C3_counterexample :
    (submit_agent_vote 2 "decision_1_manual_trigger" "A" [] "x"
      emptyOptionsVoteState).1 = Except.ok true ∧
    ((lookupA (submit_agent_vote 2 "decision_1_manual_trigger" "A" [] "x"
        emptyOptionsVoteState).2.active_decisions "decision_1_manual_trigger").map
      (fun d => (d.votes.length, d.participating_agents.length,
        d.winning_option_id, d.winning_option, d.final_decision))) =
      some (1, 1, "", none, "") := by
  refine ⟨by decide, by decide⟩

/-- Claim C3 (amended): a successful `submit_agent_vote` that brings the vote
count up to (or beyond) the participant count invokes the tally, and stores
winner id, winning option and final-decision text whenever the decision has
at least one voting option and all stored ballots reference existing option
ids; in every reachable state whose vote count has already reached the
participant count every further `submit_agent_vote` on that decision returns
false and leaves the state (hence the stored winner fields) unchanged; and a
`submit_agent_vote` by a non-participant or an agent who already voted
returns false and leaves the state unchanged. -/
theorem C3_auto_tally :
    (∀ (s : EngineState) (now : Nat) (id agent : String) (ranked : List String)
        (r : String) (d : DemocraticDecision),
      lookupA s.active_decisions id = some d →
      d.current_phase = VotingPhase.ranked_voting →
      agent ∈ d.participating_agents →
      agent ∉ d.votes.map AgentVote.agent_name →
      (∀ oid ∈ ranked, oid ∈ d.voting_options.map VotingOption.option_id) →
      d.participating_agents.length ≤ d.votes.length + 1 →
      d.voting_options ≠ [] →
      ValidVotes d →
      submit_agent_vote now id agent ranked r s =
        (Except.ok true, ⟨setA s.active_decisions id
          (tallied { d with votes := d.votes ++ [⟨agent, ranked, r, now⟩] }),
          s.completed_decisions⟩)) ∧
    (∀ s : EngineState, Reachable s → ∀ (id : String) (d : DemocraticDecision),
      lookupA s.active_decisions id = some d →
      d.participating_agents.length ≤ d.votes.length →
      ∀ (now : Nat) (agent : String) (ranked : List String) (r : String),
        submit_agent_vote now id agent ranked r s = (Except.ok false, s)) ∧
    (∀ (s : EngineState) (now : Nat) (id agent : String) (ranked : List String)
        (r : String) (d : DemocraticDecision),
      lookupA s.active_decisions id = some d →
      (agent ∉ d.participating_agents ∨ agent ∈ d.votes.map AgentVote.agent_name) →
      submit_agent_vote now id agent ranked r s = (Except.ok false, s)) := by
  refine ⟨?_, ?_, ?_⟩
  · intro s now id agent ranked r d hl hphase hagent hnew hranked hcnt hops hvalid
    rw [submit_agent_vote]
    simp only [hl]
    rw [if_neg (by simp [hphase])]
    rw [if_neg (by simp [hagent])]
    rw [if_neg (by simp [hnew])]
    rw [if_neg (not_not_intro hranked)]
    have hth : ({ d with votes := d.votes ++ [⟨agent, ranked, r, now⟩]
        } : DemocraticDecision).participating_agents.length ≤
        ({ d with votes := d.votes ++ [⟨agent, ranked, r, now⟩]
        } : DemocraticDecision).votes.length := by
      simpa using hcnt
    rw [if_pos hth]
    have hvalid2 : ValidVotes { d with votes := d.votes ++ [⟨agent, ranked, r, now⟩] } := by
      intro v hv oid hoid
      rcases List.mem_append.mp hv with h5 | h5
      · exact hvalid v h5 oid hoid
      · simp only [List.mem_singleton] at h5
        subst h5
        exact hranked oid hoid
    have hcw := calcWinner_spec { d with votes := d.votes ++ [⟨agent, ranked, r, now⟩] }
      (by simp) hops hvalid2
    rw [hcw]
  · intro s hre id d hl hcnt now agent ranked r
    exact submit_after_threshold hre hl hcnt now agent ranked r
  · intro s now id agent ranked r d hl hdisj
    rw [submit_agent_vote]
    simp only [hl]
    by_cases h1 : d.current_phase ≠ VotingPhase.ranked_voting
    · rw [if_pos h1]
    · rw [if_neg h1]
      rcases hdisj with h2 | h2
      · rw [if_pos h2]
      · by_cases h3 : agent ∉ d.participating_agents
        · rw [if_pos h3]
        · rw [if_neg h3, if_pos h2]

/-- Claim C3 witness: on a one-participant, one-option decision the single
vote triggers the auto-tally and stores the winner; afterwards every further
vote on the decision fails without touching the state; a non-participant's
vote also fails without touching the state. -/
theorem C3_witness :
    submit_agent_vote 2 "decision_1_manual_trigger" "A" ["option_1"] "x" oneOptionState =
      (Except.ok true, ⟨setA oneOptionState.active_decisions "decision_1_manual_trigger"
        (tallied { oneOptionDecision with
          votes := oneOptionDecision.votes ++ [⟨"A", ["option_1"], "x", 2⟩] }),
        oneOptionState.completed_decisions⟩) ∧
    submit_agent_vote 3 "decision_1_manual_trigger" "B" [] "y" postVoteState =
      (Except.ok false, postVoteState) ∧
    submit_agent_vote 2 "decision_1_manual_trigger" "Z" [] "q" oneOptionState =
      (Except.ok false, oneOptionState) :=
  ⟨C3_auto_tally.1 oneOptionState 2 "decision_1_manual_trigger" "A" ["option_1"] "x"
      oneOptionDecision (by decide) (by decide) (by decide) (by decide) (by decide)
      (by decide) (by decide) (by decide),
   C3_auto_tally.2.1 postVoteState ⟨postVoteOps, rfl⟩ "decision_1_manual_trigger"
      postVoteDecision (by decide) (by decide) 3 "B" [] "y",
   C3_auto_tally.2.2 oneOptionState 2 "decision_1_manual_trigger" "Z" [] "q"
      oneOptionDecision (by decide) (Or.inl (by decide))⟩

/-- Claim C10: ballot validation only checks that each ranked id is a member
of the current option ids, not distinctness, so a ballot repeating an
existing option id is accepted and stored; the Borda formula then credits
that option once per position at which it occurs in the ballot. -/
theorem C10_duplicate_ballot (s : EngineState) (now : Nat) (id agent : String)
    (ranked : List String) (r : String) (d : DemocraticDecision)
    (hl : lookupA s.active_decisions id = some d)
    (hphase : d.current_phase = VotingPhase.ranked_voting)
    (hagent : agent ∈ d.participating_agents)
    (hnew : agent ∉ d.votes.map AgentVote.agent_name)
    (hranked : ∀ oid ∈ ranked, oid ∈ d.voting_options.map VotingOption.option_id)
    (hdup : ¬ ranked.Nodup)
    (hvalid : ValidVotes d) :
    (submit_agent_vote now id agent ranked r s).1 = Except.ok true ∧
    ((lookupA (submit_agent_vote now id agent ranked r s).2.active_decisions id).map
        DemocraticDecision.votes) = some (d.votes ++ [⟨agent, ranked, r, now⟩]) ∧
    (∀ oid, bordaScore { d with votes := d.votes ++ [⟨agent, ranked, r, now⟩] } oid =
      bordaScore d oid +
        voteContribution d.voting_options.length ⟨agent, ranked, r, now⟩ oid) := by
  have hops : d.voting_options ≠ [] := by
    cases hr : ranked with
    | nil =>
      rw [hr] at hdup
      exact absurd List.nodup_nil hdup
    | cons a t =>
      have hmem := hranked a (hr ▸ List.mem_cons_self a t)
      intro hnil
      rw [hnil] at hmem
      simp at hmem
  have hborda : ∀ oid, bordaScore { d with votes := d.votes ++ [⟨agent, ranked, r, now⟩] } oid =
      bordaScore d oid +
        voteContribution d.voting_options.length ⟨agent, ranked, r, now⟩ oid := by
    intro oid
    simp [bordaScore, List.map_append, List.sum_append]
  have hvalid2 : ValidVotes { d with votes := d.votes ++ [⟨agent, ranked, r, now⟩] } := by
    intro v hv oid hoid
    rcases List.mem_append.mp hv with h5 | h5
    · exact hvalid v h5 oid hoid
    · simp only [List.mem_singleton] at h5
      subst h5
      exact hranked oid hoid
  rw [submit_agent_vote]
  simp only [hl]
  rw [if_neg (by simp [hphase])]
  rw [if_neg (by simp [hagent])]
  rw [if_neg (by simp [hnew])]
  rw [if_neg (not_not_intro hranked)]
  by_cases hth : ({ d with votes := d.votes ++ [⟨agent, ranked, r, now⟩]
      } : DemocraticDecision).participating_agents.length ≤
      ({ d with votes := d.votes ++ [⟨agent, ranked, r, now⟩]
      } : DemocraticDecision).votes.length
  · rw [if_pos hth]
    rw [calcWinner_spec { d with votes := d.votes ++ [⟨agent, ranked, r, now⟩] }
      (by simp) hops hvalid2]
    refine ⟨rfl, ?_, hborda⟩
    rw [lookupA_setA_self]
    rfl
  · rw [if_neg hth]
    refine ⟨rfl, ?_, hborda⟩
    rw [lookupA_setA_self]
    rfl

/-- Claim C10 witness: with two options, the single participant's ballot
["option_1", "option_1"] is accepted and option_1 collects 2 + 1 = 3 points
from the one ballot. -/
theorem C10_witness :
    (submit_agent_vote 2 "decision_1_manual_trigger" "A" ["option_1", "option_1"] "x"
      twoOptionState).1 = Except.ok true ∧
    bordaScore { twoOptionDecision with
        votes := twoOptionDecision.votes ++ [⟨"A", ["option_1", "option_1"], "x", 2⟩] }
      "option_1" = 3 :=
  ⟨(C10_duplicate_ballot twoOptionState 2 "decision_1_manual_trigger" "A"
      ["option_1", "option_1"] "x" twoOptionDecision (by decide) (by decide) (by decide)
      (by decide) (by decide) (by decide) (by decide)).1,
    by decide⟩

/-! ### Key-consistency invariant (for C6) -/

theorem keysConsistent_step (s : EngineState) (op : EngineOp)
    (h : KeysConsistent s) : KeysConsistent (stepOp s op) := by
  cases op with
  | trigger now ct r c ags =>
    intro p hp
    rcases mem_setA hp with h2 | h2
    · rw [h2]
    · exact h p h2
  | advance id ph =>
    simp only [stepOp, advance_phase]
    cases hl : lookupA s.active_decisions id with
    | none => simp only [hl]; exact h
    | some d =>
      simp only [hl]
      intro p hp
      rcases mem_setA hp with h2 | h2
      · rw [h2]
        exact h (id, d) (lookupA_mem hl)
      · exact h p h2
  | propose now id agent prop reas =>
    simp only [stepOp, add_agent_proposal]
    cases hl : lookupA s.active_decisions id with
    | none => simp only [hl]; exact h
    | some d =>
      simp only [hl]
      split
      · exact h
      split
      · exact h
      split
      · exact h
      intro p hp
      rcases mem_setA hp with h2 | h2
      · rw [h2]
        exact h (id, d) (lookupA_mem hl)
      · exact h p h2
  | synth id ins =>
    simp only [stepOp, synthesize_options]
    cases hl : lookupA s.active_decisions id with
    | none => simp only [hl]; exact h
    | some d =>
      simp only [hl]
      split
      · exact h
      intro p hp
      rcases mem_setA hp with h2 | h2
      · rw [h2]
        exact h (id, d) (lookupA_mem hl)
      · exact h p h2
  | vote now id agent rk r =>
    simp only [stepOp, submit_agent_vote]
    cases hl : lookupA s.active_decisions id with
    | none => simp only [hl]; exact h
    | some d =>
      have hd : d.decision_id = id := h (id, d) (lookupA_mem hl)
      simp only [hl]
      split
      · exact h
      split
      · exact h
      split
      · exact h
      split
      · exact h
      split
      · split
        case h_1 =>
          intro p hp
          rcases mem_setA hp with h2 | h2
          · rw [h2]
            exact hd
          · exact h p h2
        case h_2 d3w heq =>
          intro p hp
          rcases mem_setA hp with h2 | h2
          · rw [h2]
            have h3 := (calcWinner_frame heq).2.2
            rw [h3]
            exact hd
          · exact h p h2
      · intro p hp
        rcases mem_setA hp with h2 | h2
        · rw [h2]
          exact hd
        · exact h p h2
  | finalize now id txt =>
    simp only [stepOp, finalize_decision]
    cases hl : lookupA s.active_decisions id with
    | none => simp only [hl]; exact h
    | some d =>
      simp only [hl]
      intro p hp
      exact h p (mem_delA hp)

theorem reachable_keysConsistent {s : EngineState} (h : Reachable s) :
    KeysConsistent s := by
  obtain ⟨ops, hops⟩ := h
  rw [← hops]
  have key : ∀ (l : List EngineOp) (s0 : EngineState), KeysConsistent s0 →
      KeysConsistent (runOps s0 l) := by
    intro l
    induction l with
    | nil => intro s0 h0; exact h0
    | cons op t ih =>
      intro s0 h0
      exact ih (stepOp s0 op) (keysConsistent_step s0 op h0)
  exact key ops initEngine (by intro p hp; simp [initEngine] at hp)

/-- Claim C6, counterexample: after finalizing "decision_5_manual_trigger", a
same-second re-trigger with the same conflict type reuses the id, so a later
`add_agent_proposal` against the supposedly terminal id succeeds; and after
the second decision is finalized too, `get_decision_status` serves the first
completed record (trigger_reason "r1"), not the most recently finalized one
("r2"). -/
theorem C6_counterexample :
    (add_agent_proposal 7 "decision_5_manual_trigger" "A" "p" "q" retriggerState).1 =
      true ∧
    ((get_decision_status "decision_5_manual_trigger"
        (stepOp retriggerState (EngineOp.finalize 8 "decision_5_manual_trigger" none))).map
      DemocraticDecision.trigger_reason) = some "r1" ∧
    (((stepOp retriggerState
        (EngineOp.finalize 8 "decision_5_manual_trigger" none)).completed_decisions.getLast?).map
      DemocraticDecision.trigger_reason) = some "r2" ∧
    ("r1" : String) ≠ "r2" := by
  refine ⟨by decide, by decide, by decide, by decide⟩

/-- Claim C6 (amended): finalizing an active decision sets `end_time`, moves
the phase to COMMITMENT, overwrites `final_decision` when a nonempty text is
supplied (and keeps it otherwise), and moves the record to completed storage;
afterwards — provided no completed decision already carried the id and no
later trigger regenerates the same id — `get_decision_status` keeps returning
the finalized snapshot from completed storage, and every later
`add_agent_proposal`, `submit_agent_vote` and `synthesize_options` against
the id returns false and leaves the state unchanged. -/
theorem C6_finalize (s : EngineState) (now : Nat) (id : String) (txt : Option String)
    (d : DemocraticDecision) (hre : Reachable s)
    (hl : lookupA s.active_decisions id = some d)
    (hfresh : findById s.completed_decisions id = none) :
    finalize_decision now id txt s =
      (true, ⟨delA s.active_decisions id,
        s.completed_decisions ++ [finRecord d txt now]⟩) ∧
    (finRecord d txt now).end_time = some now ∧
    (finRecord d txt now).current_phase = VotingPhase.commitment ∧
    (∀ t, txt = some t → t ≠ "" → (finRecord d txt now).final_decision = t) ∧
    (txt = none → (finRecord d txt now).final_decision = d.final_decision) ∧
    (∀ later : List EngineOp, (∀ op ∈ later, ¬ TriggersId op id) →
      get_decision_status id (runOps (finalize_decision now id txt s).2 later) =
        some (finRecord d txt now) ∧
      (∀ (n2 : Nat) (agent prop reas : String),
        add_agent_proposal n2 id agent prop reas
            (runOps (finalize_decision now id txt s).2 later) =
          (false, runOps (finalize_decision now id txt s).2 later)) ∧
      (∀ (n2 : Nat) (agent : String) (rk : List String) (r2 : String),
        submit_agent_vote n2 id agent rk r2
            (runOps (finalize_decision now id txt s).2 later) =
          (Except.ok false, runOps (finalize_decision now id txt s).2 later)) ∧
      (∀ ins, synthesize_options id ins
          (runOps (finalize_decision now id txt s).2 later) =
        (false, runOps (finalize_decision now id txt s).2 later))) := by
  have hkeys : (s.active_decisions.map Prod.fst).Nodup := (reachable_good hre).1
  have hdid : d.decision_id = id :=
    reachable_keysConsistent hre (id, d) (lookupA_mem hl)
  have hres : finalize_decision now id txt s =
      (true, ⟨delA s.active_decisions id,
        s.completed_decisions ++ [finRecord d txt now]⟩) := by
    rw [finalize_decision]
    simp only [hl]
    cases txt with
    | none => rfl
    | some t =>
      by_cases ht : t ≠ ""
      · simp [finRecord, ht]
      · simp [finRecord, ht]
  refine ⟨hres, rfl, rfl, ?_, ?_, ?_⟩
  · intro t htt hne
    subst htt
    simp [finRecord, hne]
  · intro htt
    subst htt
    rfl
  · intro later hops
    have hfinid : (finRecord d txt now).decision_id = id := by
      cases txt with
      | none => exact hdid
      | some t =>
        by_cases ht : t ≠ ""
        · simp [finRecord, ht, hdid]
        · simp [finRecord, ht, hdid]
    have hdor0 : Dormant (finalize_decision now id txt s).2 id (finRecord d txt now) := by
      rw [hres]
      refine ⟨lookupA_delA_self hkeys, ?_⟩
      rw [findById_append_none hfresh]
      rw [findById, if_pos hfinid]
    have hdor := dormant_runOps hdor0 later hops
    have hmf := mutations_fail_of_not_active hdor.1
    refine ⟨?_, ?_, ?_, ?_⟩
    · rw [get_decision_status]
      simp only [hdor.1]
      exact hdor.2
    · intro n2 agent prop reas
      exact hmf.1 n2 agent prop reas
    · intro n2 agent rk r2
      exact hmf.2.1 n2 agent rk r2
    · intro ins
      exact hmf.2.2.1 ins

/-- Claim C6 witness: the amended theorem applied to a freshly triggered
decision, finalized with no text, followed by one non-triggering operation. -/
theorem C6_witness :
    get_decision_status "decision_1_manual_trigger"
      (runOps (finalize_decision 2 "decision_1_manual_trigger" none soloState).2
        [EngineOp.advance "decision_1_manual_trigger" VotingPhase.synthesis]) =
      some (finRecord soloDecision none 2) ∧
    add_agent_proposal 3 "decision_1_manual_trigger" "A" "p" "q"
        (runOps (finalize_decision 2 "decision_1_manual_trigger" none soloState).2
          [EngineOp.advance "decision_1_manual_trigger" VotingPhase.synthesis]) =
      (false, runOps (finalize_decision 2 "decision_1_manual_trigger" none soloState).2
        [EngineOp.advance "decision_1_manual_trigger" VotingPhase.synthesis]) := by
  have h := (C6_finalize soloState 2 "decision_1_manual_trigger" none soloDecision
    ⟨soloOps, rfl⟩ (by decide) (by decide)).2.2.2.2.2
    [EngineOp.advance "decision_1_manual_trigger" VotingPhase.synthesis] (by decide)
  exact ⟨h.1, h.2.1 3 "A" "p" "q"⟩

end DemAgSys
